import Mathlib

/-!
# Qingping BLE advertisement decoder

A shallow embedding of `esphome/components/qingping_ble/qingping_ble.cpp`
(`parse_qingping_message`, `parse_qingping_header`, `decrypt_qingping_payload`).

Conventions of the embedding.

* A byte (`uint8_t`) is a natural number; a byte buffer (`std::vector<uint8_t>`,
  `uint8_t[16]`) is a `List Nat`.  Where the C code truncates to eight bits the
  embedding writes `% 256`.
* A read or write outside a buffer is undefined behaviour in C.  Every function
  that touches memory returns an `Option`; `none` is the out-of-range access.
* A `float` is represented by the rational number it denotes.  The conversions of
  `uint8_t` and `int16_t` to `float` are exact; the binary32 division
  `x / 10.0f` is `float_div`, rounding to nearest, ties to even.
* The function-local `static uint8_t last_frame_count` of
  `parse_qingping_header` is threaded through as an explicit argument and result.
* The mbedTLS CCM primitive is a parameter (`Mbedtls`); a (pointer, length)
  argument pair of a C call is the list of the first `length` bytes of the buffer.
-/

namespace esphome
namespace qingping_ble

/-! ## Data model (`qingping_ble.h`) -/

/-- Device models: the anonymous `enum` of `QingpingParseResult`. -/
inductive DeviceType where
  | TYPE_HHCCJCY01
  | TYPE_GCLS002
  | TYPE_HHCCPOT002
  | TYPE_LYWSDCGQ
  | TYPE_LYWSD02
  | TYPE_CGG1
  | TYPE_LYWSD03MMC
  | TYPE_CGD1
  | TYPE_JQJCY01YM
  | TYPE_MUE4094RT
  | TYPE_WX08ZM
  | TYPE_MJYD02YLA
  deriving DecidableEq, Repr

/-- The `struct QingpingParseResult`. -/
structure QingpingParseResult where
  type : DeviceType
  name : String
  temperature : Option ℚ
  humidity : Option ℚ
  moisture : Option ℚ
  conductivity : Option ℚ
  illuminance : Option ℚ
  formaldehyde : Option ℚ
  battery_level : Option ℚ
  tablet : Option ℚ
  idle_time : Option ℚ
  is_active : Option Bool
  has_motion : Option Bool
  is_light : Option Bool
  has_data : Bool
  has_capability : Bool
  has_encryption : Bool
  is_duplicate : Bool
  raw_offset : Int
  deriving DecidableEq, Repr

/-- The `struct QingpingAESVector`: six 16-byte arrays and five sizes. -/
structure QingpingAESVector where
  key : List Nat
  plaintext : List Nat
  ciphertext : List Nat
  authdata : List Nat
  iv : List Nat
  tag : List Nat
  keysize : Nat
  authsize : Nat
  datasize : Nat
  tagsize : Nat
  ivsize : Nat
  deriving DecidableEq, Repr

/-- What `parse_qingping_header` uses of `esp32_ble_tracker::ESPBTUUID`: the
member `contains(data1, data2)`.  Its body is outside these sources, so it is a
field here. -/
structure ESPBTUUID where
  contains : Nat → Nat → Bool

/-- The `esp32_ble_tracker::ServiceData`: a UUID and the raw bytes. -/
structure ServiceData where
  uuid : ESPBTUUID
  data : List Nat

/-- The two mbedTLS entry points whose results the code inspects.

`ccm_setkey key keybits` is the return code of `mbedtls_ccm_setkey`.
`ccm_auth_decrypt key length iv add input tag` is the return code of
`mbedtls_ccm_auth_decrypt` on a context holding `key`, together with the bytes
it stored in the output buffer. -/
structure Mbedtls where
  ccm_setkey : List Nat → Nat → Int
  ccm_auth_decrypt : List Nat → Nat → List Nat → List Nat → List Nat → List Nat → Int × List Nat

/-- The calls `decrypt_qingping_payload` makes into mbedTLS, with their arguments. -/
inductive MbedtlsCall where
  | ccm_init
  | ccm_setkey (key : List Nat) (keybits : Nat)
  | ccm_auth_decrypt (length : Nat) (iv add input tag : List Nat)
  | ccm_free
  deriving DecidableEq, Repr

/-- Everything observable of one run of `decrypt_qingping_payload`: the returned
`bool`, the record `raw` afterwards, and the mbedTLS calls made, in order. -/
structure DecryptOutcome where
  ok : Bool
  raw : List Nat
  calls : List MbedtlsCall
  deriving DecidableEq, Repr

/-! ## Memory helpers -/

/-- Read `v[i]` for a signed index; `none` outside the buffer. -/
def readAt (v : List Nat) (i : Int) : Option Nat :=
  if 0 ≤ i then v[i.toNat]? else none

/-- The C `memcpy(dst + d, src + s, n)`; `none` when either range leaves its buffer. -/
def memcpy (dst : List Nat) (d : Nat) (src : List Nat) (s n : Nat) : Option (List Nat) :=
  if s + n ≤ src.length ∧ d + n ≤ dst.length then
    some (dst.take d ++ (src.drop s).take n ++ dst.drop (d + n))
  else none

/-- A zero-initialised `uint8_t[16]`. -/
def zeros16 : List Nat := List.replicate 16 0

/-- The bytes mbedTLS stored at the start of the output buffer `buf`: at most
`length` of them. -/
def store_output (buf out : List Nat) (length : Nat) : List Nat :=
  out.take length ++ buf.drop (out.take length).length

/-! ## `decrypt_qingping_payload` -/

/-- Line 133: `vector.datasize`, as a function of `raw.size()`. -/
def datasize (size : Nat) : Nat := if size = 19 then size - 12 else size - 18

/-- Line 134: `cipher_pos`, as a function of `raw.size()`. -/
def cipher_pos (size : Nat) : Nat := if size = 19 then 5 else 11

/-- Lines 113–119: the six low bytes of the address, least significant first. -/
def mac_reverse (address : Nat) : List Nat :=
  [(address >>> 0) % 256, (address >>> 8) % 256, (address >>> 16) % 256,
   (address >>> 24) % 256, (address >>> 32) % 256, (address >>> 40) % 256]

/-- Lines 121–143: the `QingpingAESVector` as it stands when the cipher is called. -/
def prepare_vector (raw bindkey : List Nat) (address : Nat) : Option QingpingAESVector := do
  let vector : QingpingAESVector :=
    { key := zeros16, plaintext := zeros16, ciphertext := zeros16,
      authdata := 0x11 :: List.replicate 15 0, iv := zeros16, tag := zeros16,
      keysize := 16, authsize := 1, datasize := 0, tagsize := 4, ivsize := 12 }
  let vector := { vector with datasize := datasize raw.length }
  let cipher_pos := cipher_pos raw.length
  let key ← memcpy vector.key 0 bindkey 0 vector.keysize
  let ciphertext ← memcpy vector.ciphertext 0 raw cipher_pos vector.datasize
  let tag ← memcpy vector.tag 0 raw (raw.length - vector.tagsize) vector.tagsize
  let iv ← memcpy vector.iv 0 (mac_reverse address) 0 6
  let iv ← memcpy iv 6 raw 2 3
  let iv ← memcpy iv 9 raw (raw.length - 7) 3
  some { vector with key := key, ciphertext := ciphertext, tag := tag, iv := iv }

/-- Line 148: the return code of `mbedtls_ccm_setkey(&ctx, AES, vector.key, vector.keysize * 8)`. -/
def call_setkey (m : Mbedtls) (v : QingpingAESVector) : Int :=
  m.ccm_setkey (v.key.take v.keysize) (v.keysize * 8)

/-- Lines 155–156: the return code and output of `mbedtls_ccm_auth_decrypt`. -/
def call_auth_decrypt (m : Mbedtls) (v : QingpingAESVector) : Int × List Nat :=
  m.ccm_auth_decrypt (v.key.take v.keysize) v.datasize (v.iv.take v.ivsize)
    (v.authdata.take v.authsize) (v.ciphertext.take v.datasize) (v.tag.take v.tagsize)

/-- Lines 177–181: `n` steps of the loop `*it = *(p++)`, with `it` at index `pos` of
`raw` and `p` at index `i` of `plaintext`. -/
def copy_plaintext (raw plaintext : List Nat) (pos i : Nat) : Nat → Option (List Nat)
  | 0 => some raw
  | n + 1 =>
    if pos < raw.length then
      match plaintext[i]? with
      | some b => copy_plaintext (raw.set pos b) plaintext (pos + 1) (i + 1) n
      | none => none
    else none

/-- The function `decrypt_qingping_payload(raw, bindkey, address)`. -/
def decrypt_qingping_payload (m : Mbedtls) (raw bindkey : List Nat) (address : Nat) :
    Option DecryptOutcome :=
  -- lines 107–111: the length check
  if ¬ (raw.length = 19 ∨ (raw.length ≥ 22 ∧ raw.length ≤ 24)) then
    some { ok := false, raw := raw, calls := [] }
  else do
    -- lines 113–143
    let vector ← prepare_vector raw bindkey address
    let cipher_pos := cipher_pos raw.length
    let setkey := MbedtlsCall.ccm_setkey (vector.key.take vector.keysize) (vector.keysize * 8)
    let ret := call_setkey m vector
    if ret ≠ 0 then
      some { ok := false, raw := raw, calls := [.ccm_init, setkey, .ccm_free] }
    else
      let auth := MbedtlsCall.ccm_auth_decrypt vector.datasize (vector.iv.take vector.ivsize)
        (vector.authdata.take vector.authsize) (vector.ciphertext.take vector.datasize)
        (vector.tag.take vector.tagsize)
      let ret := (call_auth_decrypt m vector).1
      let vector := { vector with
        plaintext := store_output vector.plaintext (call_auth_decrypt m vector).2 vector.datasize }
      if ret ≠ 0 then
        some { ok := false, raw := raw, calls := [.ccm_init, setkey, auth, .ccm_free] }
      else do
        -- lines 177–181: replace encrypted payload with plaintext
        let raw ← copy_plaintext raw vector.plaintext cipher_pos 0 vector.datasize
        -- line 184: `raw[0] &= ~0x08`, the low eight bits of `~0x08` being `0xF7`
        let b0 ← raw[0]?
        let raw := raw.set 0 ((b0 &&& 0xF7) % 256)
        some { ok := true, raw := raw, calls := [.ccm_init, setkey, auth, .ccm_free] }

/-! ## `parse_qingping_message` -/

/-- Lines 41, 46, 55, 56: `const int16_t x = uint16_t(lo) | (uint16_t(hi) << 8)`,
the conversion to `int16_t` wrapping modulo `2^16`. -/
def int16_le (lo hi : Nat) : Int :=
  let u := ((lo % 65536) ||| ((hi % 65536) <<< 8)) % 65536
  if u < 32768 then (u : Int) else (u : Int) - 65536

/-- The integer nearest to `num / den`, a tie going to the even one. -/
def round_half_even (num den : Nat) : Nat :=
  let f := num / den
  let r := num % den
  if 2 * r < den then f
  else if den < 2 * r then f + 1
  else if f % 2 = 0 then f else f + 1

/-- The number of halvings that take `n` below 2, with `fuel` as recursion bound:
`floor_log2 n n` is the integer part of the binary logarithm of `n`. -/
def floor_log2 : Nat → Nat → Nat
  | 0, _ => 0
  | fuel + 1, n => if n < 2 then 0 else floor_log2 fuel (n / 2) + 1

/-- The binary exponent of `n / d`: the `e` with `2^e ≤ n / d < 2^(e+1)`. -/
def binary32_exponent (n d : Nat) : Int :=
  let ln := floor_log2 n n
  let ld := floor_log2 d d
  if d * 2 ^ ln ≤ n * 2 ^ ld then (ln : Int) - ld else (ln : Int) - ld - 1

/-- The 24-bit significand of the binary32 value nearest to `n / d`, as an
integer: `n / d` in units of `2^(e - 23)`, rounded to nearest, ties to even. -/
def binary32_significand (n d : Nat) : Nat :=
  let p := binary32_exponent n d - 23
  round_half_even (n * 2 ^ (-p).toNat) (d * 2 ^ p.toNat)

/-- Lines 42, 47, 57, 58: the binary32 division `x / y` of two floats holding the
integers `x` and `y` exactly (`|x| < 2^24`, `0 < y < 2^24`): the value of the
float nearest to the quotient, ties to even.  With such operands the quotient
is zero or lies between `2^-24` and `2^24`, inside the normal range of
binary32, so there is neither overflow nor a subnormal result. -/
def float_div (x : Int) (y : Nat) : ℚ :=
  if x = 0 then 0
  else
    let magnitude : ℚ :=
      (binary32_significand x.natAbs y : ℚ) * (2 : ℚ) ^ (binary32_exponent x.natAbs y - 23)
    if x < 0 then -magnitude else magnitude

/-- The function `parse_qingping_message(message, result)`: the returned `bool`
and `result` afterwards. -/
def parse_qingping_message (message : List Nat) (result : QingpingParseResult) :
    Option (Bool × QingpingParseResult) := do
  let m0 ← message[0]?
  let result := { result with has_encryption := (m0 &&& 0x08) != 0 }
  let raw := result.raw_offset
  let data := raw + 3
  let data_length ← readAt message (raw + 2)
  if data_length < 1 ∨ data_length > 4 then
    some (false, result)
  else do
    let raw0 ← readAt message raw
    if raw0 = 0x04 ∧ data_length = 2 then do
      let d0 ← readAt message data
      let d1 ← readAt message (data + 1)
      let temperature := int16_le d0 d1
      some (true, { result with temperature := some (float_div temperature 10) })
    else if raw0 = 0x06 ∧ data_length = 2 then do
      let d0 ← readAt message data
      let d1 ← readAt message (data + 1)
      let humidity := int16_le d0 d1
      some (true, { result with humidity := some (float_div humidity 10) })
    else if raw0 = 0x0A ∧ data_length = 1 then do
      let d0 ← readAt message data
      some (true, { result with battery_level := some (d0 : ℚ) })
    else if raw0 = 0x0D ∧ data_length = 4 then do
      let d0 ← readAt message data
      let d1 ← readAt message (data + 1)
      let temperature := int16_le d0 d1
      let d2 ← readAt message (data + 2)
      let d3 ← readAt message (data + 3)
      let humidity := int16_le d2 d3
      some (true, { result with temperature := some (float_div temperature 10),
                                humidity := some (float_div humidity 10) })
    else
      some (false, result)

/-! ## `parse_qingping_header` -/

/-- Line 68: `QingpingParseResult result;`.  The string and the optionals are
empty.  The enum, the four `bool`s and `raw_offset` are indeterminate in C; each
of them is assigned (lines 75–77, 91, 92, 95) before a result is returned, and
the values chosen here for them are never observed. -/
def QingpingParseResult.declared : QingpingParseResult :=
  { type := .TYPE_HHCCJCY01, name := "",
    temperature := none, humidity := none, moisture := none, conductivity := none,
    illuminance := none, formaldehyde := none, battery_level := none, tablet := none,
    idle_time := none, is_active := none, has_motion := none, is_light := none,
    has_data := false, has_capability := false, has_encryption := false,
    is_duplicate := false, raw_offset := 0 }

/-- Line 75: `((raw[0] & 0x40) || (raw[0] & 0x08)) ? true : false`. -/
def header_has_data (raw0 : Nat) : Bool := (raw0 &&& 0x40) != 0 || (raw0 &&& 0x08) != 0

/-- Line 76: `(raw[0] & 0x20) ? true : false`. -/
def header_has_capability (raw0 : Nat) : Bool := (raw0 &&& 0x20) != 0

/-- The function `parse_qingping_header(service_data)`, with the `static`
`last_frame_count` before the call as second argument: the returned optional and
`last_frame_count` afterwards. -/
def parse_qingping_header (service_data : ServiceData) (last_frame_count : Nat) :
    Option (Option QingpingParseResult × Nat) :=
  let result := QingpingParseResult.declared
  if (!service_data.uuid.contains 0x95 0xFE && !service_data.uuid.contains 0xCD 0xFD) = true then
    some (none, last_frame_count)
  else do
    let raw := service_data.data
    let raw0 ← raw[0]?
    let result := { result with has_data := header_has_data raw0 }
    let result := { result with has_capability := header_has_capability raw0 }
    let result := { result with has_encryption := false }
    if (!result.has_data) = true then
      some (none, last_frame_count)
    else do
      let raw4 ← raw[4]?
      let last_frame_count := raw4
      let result := { result with is_duplicate := false }
      let result := { result with raw_offset := if result.has_capability then 12 else 11 }
      if raw0 = 0x08 then do
        let raw1 ← raw[1]?
        if raw1 = 0x01 then
          let result := { result with type := .TYPE_CGG1 }
          let result := { result with name := "CGG1" }
          let result := { result with raw_offset := 8 }
          some (some result, last_frame_count)
        else
          some (none, last_frame_count)
      else
        some (none, last_frame_count)

/-! ## `report_qingping_results` -/

/-- The function `report_qingping_results(result, address)`: `false` for an empty
optional, `true` otherwise.  The log lines are not part of the embedding. -/
def report_qingping_results (result : Option QingpingParseResult) : Bool :=
  if !result.isSome then false else true

end qingping_ble

/-! ## `QingpingCGG1::parse_device` (`qingping_cgg1.cpp`) -/

namespace qingping_cgg1
open qingping_ble

/-- What `parse_device` uses of `esp32_ble_tracker::ESPBTDevice`: the result of
`address_uint64()` and of `get_service_datas()`. -/
structure ESPBTDevice where
  address_uint64 : Nat
  get_service_datas : List ServiceData

/-- The members of `QingpingCGG1` that `parse_device` uses: `address_` and, for
each of the three sensor pointers, whether it is not `nullptr`. -/
structure QingpingCGG1 where
  address_ : Nat
  temperature_ : Bool
  humidity_ : Bool
  battery_level_ : Bool

/-- A call of `publish_state(state)` on one of the three sensors. -/
inductive PublishedState where
  | temperature (state : ℚ)
  | humidity (state : ℚ)
  | battery_level (state : ℚ)
  deriving DecidableEq, Repr

/-- Lines 44–49: `if (value.has_value() && sensor != nullptr) sensor->publish_state(*value)`. -/
def publish (value : Option ℚ) (sensor : Bool) (mk : ℚ → PublishedState) : List PublishedState :=
  match value with
  | some state => if sensor then [mk state] else []
  | none => []

/-- Lines 27–50: one pass of the loop body on `service_data`.  The first component
is the result when the pass reaches `success = true`, and `none` when it ends in
a `continue`; then the states published; then `last_frame_count` afterwards. -/
def parse_device_body (this : QingpingCGG1) (service_data : ServiceData) (last_frame_count : Nat) :
    Option (Option QingpingParseResult × List PublishedState × Nat) := do
  let (res, last_frame_count) ← parse_qingping_header service_data last_frame_count
  match res with
  | none => some (none, [], last_frame_count)
  | some res =>
    if res.is_duplicate then
      some (none, [], last_frame_count)
    else if res.has_encryption then
      some (none, [], last_frame_count)
    else do
      let (ok, res) ← parse_qingping_message service_data.data res
      if !ok then
        some (none, [], last_frame_count)
      else if !report_qingping_results (some res) then
        some (none, [], last_frame_count)
      else
        some (some res,
          publish res.temperature this.temperature_ PublishedState.temperature ++
          publish res.humidity this.humidity_ PublishedState.humidity ++
          publish res.battery_level this.battery_level_ PublishedState.battery_level,
          last_frame_count)

/-- Lines 25–51: the loop over the service datas, carrying `success`, the states
published so far and `last_frame_count`. -/
def parse_device_loop (this : QingpingCGG1) :
    List ServiceData → Bool → List PublishedState → Nat → Option (Bool × List PublishedState × Nat)
  | [], success, published, last_frame_count => some (success, published, last_frame_count)
  | service_data :: rest, success, published, last_frame_count => do
    let (res, states, last_frame_count) ← parse_device_body this service_data last_frame_count
    parse_device_loop this rest (success || res.isSome) (published ++ states) last_frame_count

/-- The function `QingpingCGG1::parse_device(device)`: the returned `bool`, the
states published, and `last_frame_count` afterwards. -/
def QingpingCGG1.parse_device (this : QingpingCGG1) (device : ESPBTDevice)
    (last_frame_count : Nat) : Option (Bool × List PublishedState × Nat) :=
  if device.address_uint64 ≠ this.address_ then
    some (false, [], last_frame_count)
  else do
    let (success, published, last_frame_count) ←
      parse_device_loop this device.get_service_datas false [] last_frame_count
    if !success then
      some (false, published, last_frame_count)
    else
      some (true, published, last_frame_count)

end qingping_cgg1

namespace qingping_ble
open qingping_cgg1

/-! ## Sample data -/

/-- A toy cipher standing in for CCM encryption: the ciphertext is the plaintext
and the tag is the fixed `[1, 2, 3, 4]`. -/
def toy_encrypt (_key _nonce _add plaintext : List Nat) : List Nat × List Nat :=
  (plaintext, [1, 2, 3, 4])

/-- The decrypting side of `toy_encrypt`: `mbedtls_ccm_setkey` accepts a 128-bit
key (else `MBEDTLS_ERR_CCM_BAD_INPUT`), `mbedtls_ccm_auth_decrypt` accepts the
tag `[1, 2, 3, 4]` (else `MBEDTLS_ERR_CCM_AUTH_FAILED`). -/
def toy_ccm : Mbedtls where
  ccm_setkey := fun key keybits => if key.length = 16 ∧ keybits = 128 then 0 else -13
  ccm_auth_decrypt := fun _ _ _ _ input tag => if tag = [1, 2, 3, 4] then (0, input) else (-15, [])

/-- A 16-byte bindkey. -/
def sample_key : List Nat :=
  [0x00, 0x11, 0x22, 0x33, 0x44, 0x55, 0x66, 0x77, 0x88, 0x99, 0xAA, 0xBB, 0xCC, 0xDD, 0xEE, 0xFF]

/-- A device address whose bits 48..63 are not zero. -/
def sample_address : Nat := 0xABCD582D34106E5A

/-- A 19-byte record: flag byte `0x48`, payload `[5, 12)`, counter `[12, 15)`,
tag `[1, 2, 3, 4]`. -/
def sample_record19 : List Nat :=
  [0x48, 0x30, 0x47, 0x03, 0x21, 0x0D, 0x10, 0x04, 0x0A, 0x00, 0x96, 0x01,
   0xC1, 0xC2, 0xC3, 0x01, 0x02, 0x03, 0x04]

/-- The record `sample_record19` with its last tag byte altered. -/
def tampered_record19 : List Nat :=
  [0x48, 0x30, 0x47, 0x03, 0x21, 0x0D, 0x10, 0x04, 0x0A, 0x00, 0x96, 0x01,
   0xC1, 0xC2, 0xC3, 0x01, 0x02, 0x03, 0x05]

/-- A 20-byte record. -/
def sample_record20 : List Nat :=
  [0x48, 0x30, 0x47, 0x03, 0x21, 0x0D, 0x10, 0x04, 0x0A, 0x00, 0x96, 0x01,
   0xC0, 0xC1, 0xC2, 0xC3, 0x01, 0x02, 0x03, 0x04]

/-- The 19 bytes `0, 1, …, 18`: each byte is its own index. -/
def index_record19 : List Nat :=
  [0, 1, 2, 3, 4, 5, 6, 7, 8, 9, 10, 11, 12, 13, 14, 15, 16, 17, 18]

/-- A UUID holding the magic bytes `0x95, 0xFE`. -/
def sample_uuid : ESPBTUUID where
  contains := fun a b => a == 0x95 && b == 0xFE

/-- A UUID holding neither pair of magic bytes. -/
def foreign_uuid : ESPBTUUID where
  contains := fun a b => a == 0x0F && b == 0x18

/-- A 12-byte record with the accepted signature `08 01` and, at offset 8, a
battery data point with value `0x64`. -/
def battery_record : List Nat :=
  [0x08, 0x01, 0x02, 0x03, 0x04, 0x05, 0x06, 0x07, 0x0A, 0x10, 0x01, 0x64]

/-- The record `battery_record` with the value byte `0xFF`. -/
def battery_record_255 : List Nat :=
  [0x08, 0x01, 0x02, 0x03, 0x04, 0x05, 0x06, 0x07, 0x0A, 0x10, 0x01, 0xFF]

/-- A 13-byte record with, at offset 8, a temperature data point `F6 FF`. -/
def temperature_record : List Nat :=
  [0x08, 0x01, 0x02, 0x03, 0x04, 0x05, 0x06, 0x07, 0x04, 0x10, 0x02, 0xF6, 0xFF]

/-- A 13-byte record with, at offset 8, a temperature data point `FF 7F`. -/
def warm_record : List Nat :=
  [0x08, 0x01, 0x02, 0x03, 0x04, 0x05, 0x06, 0x07, 0x04, 0x10, 0x02, 0xFF, 0x7F]

/-- A 15-byte record with, at offset 8, a data point of type `0x0D`, length 4 and
value bytes `0A 00 96 01`. -/
def climate_record : List Nat :=
  [0x08, 0x01, 0x02, 0x03, 0x04, 0x05, 0x06, 0x07, 0x0D, 0x10, 0x04, 0x0A, 0x00, 0x96, 0x01]

/-- The five bytes `08 01 02 03 04`: the accepted signature and nothing at offset 8. -/
def short_record : List Nat := [0x08, 0x01, 0x02, 0x03, 0x04]

/-- A 19-byte record with the accepted signature `08 01` and the tag `[1, 2, 3, 4]`. -/
def signed_record19 : List Nat :=
  [0x08, 0x01, 0x47, 0x03, 0x21, 0x0D, 0x10, 0x04, 0x0A, 0x00, 0x96, 0x01,
   0xC1, 0xC2, 0xC3, 0x01, 0x02, 0x03, 0x04]

/-- A result as `parse_qingping_header` returns it: `raw_offset = 8`. -/
def header_result : QingpingParseResult :=
  { QingpingParseResult.declared with
    type := .TYPE_CGG1, name := "CGG1", has_data := true, raw_offset := 8 }

/-- A `QingpingCGG1` with all three sensors configured. -/
def sample_cgg1 : QingpingCGG1 :=
  { address_ := 0x582D34106E5A, temperature_ := true, humidity_ := true, battery_level_ := true }

/-! ## Specification-side definitions -/

/-- CCM decryption with the primitive `m`, driven the way lines 148–157 drive it:
set the key (eight bits per key byte), then authenticate and decrypt `input`;
`none` when either step returns a non-zero code. -/
def ccm_decrypt (m : Mbedtls) (key nonce add input tag : List Nat) : Option (List Nat) :=
  if m.ccm_setkey key (key.length * 8) ≠ 0 then none
  else if (m.ccm_auth_decrypt key input.length nonce add input tag).1 ≠ 0 then none
  else some (m.ccm_auth_decrypt key input.length nonce add input tag).2

/-- The round-trip law of an encryption function `encrypt key nonce add plaintext`
(returning ciphertext and tag) against the primitive `m`: under a 16-byte key,
decrypting what `encrypt` produced gives back the plaintext. -/
def RoundTrip (m : Mbedtls)
    (encrypt : List Nat → List Nat → List Nat → List Nat → List Nat × List Nat) : Prop :=
  ∀ key nonce add plaintext, key.length = 16 →
    ccm_decrypt m key nonce add (encrypt key nonce add plaintext).1
      (encrypt key nonce add plaintext).2 = some plaintext

/-- The two's-complement signed 16-bit reading of the little-endian byte pair
`(b0, b1)`: `b0 + 256 * b1` when that is below `32768`, and `65536` less otherwise. -/
def signed16 (b0 b1 : Nat) : Int :=
  if b0 + 256 * b1 < 32768 then ((b0 + 256 * b1 : Nat) : Int)
  else ((b0 + 256 * b1 : Nat) : Int) - 65536

/-! ## Properties of the memory helpers -/

theorem zeros16_getElem? (k : Nat) (h : k < 16) : zeros16[k]? = some 0 := by
  interval_cases k <;> rfl

theorem copy_plaintext_spec (n : Nat) : ∀ (raw pt : List Nat) (pos i : Nat),
    pos + n ≤ raw.length → i + n ≤ pt.length →
    ∃ out, copy_plaintext raw pt pos i n = some out ∧ out.length = raw.length ∧
      ∀ j, out[j]? = if pos ≤ j ∧ j < pos + n then pt[i + (j - pos)]? else raw[j]? := by
  induction n with
  | zero =>
    intro raw pt pos i _ _
    refine ⟨raw, rfl, rfl, fun j => ?_⟩
    rw [if_neg (by omega)]
  | succ n ih =>
    intro raw pt pos i hr hp
    have hpos : pos < raw.length := by omega
    have hi : i < pt.length := by omega
    obtain ⟨out, ho, hl, hj⟩ := ih (raw.set pos pt[i]) pt (pos + 1) (i + 1)
      (by simp; omega) (by omega)
    refine ⟨out, ?_, by simpa using hl, fun j => ?_⟩
    · simp [copy_plaintext, hpos, List.getElem?_eq_getElem hi, ho]
    · rw [hj j]
      by_cases h1 : pos + 1 ≤ j ∧ j < pos + 1 + n
      · have h2 : pos ≤ j ∧ j < pos + (n + 1) := by omega
        have h3 : i + 1 + (j - (pos + 1)) = i + (j - pos) := by omega
        rw [if_pos h1, if_pos h2, h3]
      · rw [if_neg h1]
        by_cases h4 : j = pos
        · subst h4
          rw [if_pos (by omega)]
          simp [List.getElem?_set, hpos, List.getElem?_eq_getElem hi]
        · have h2 : ¬ (pos ≤ j ∧ j < pos + (n + 1)) := by omega
          have h5 : pos ≠ j := fun h => h4 h.symm
          rw [if_neg h2]
          simp [List.getElem?_set, h5]

theorem store_output_length (buf out : List Nat) (len : Nat) (h : len ≤ buf.length) :
    (store_output buf out len).length = buf.length := by
  simp [store_output]; omega

theorem store_output_getElem? (buf out : List Nat) (len j : Nat) :
    (store_output buf out len)[j]? = if j < len ∧ j < out.length then out[j]? else buf[j]? := by
  unfold store_output
  by_cases h : j < len ∧ j < out.length
  · rw [if_pos h, List.getElem?_append_left (by simp; omega), List.getElem?_take_of_lt h.1]
  · rw [if_neg h, List.getElem?_append_right (by simp; omega)]
    simp
    congr 1
    omega

theorem prepare_vector_accepted (raw bindkey : List Nat) (address : Nat)
    (hn : raw.length = 19 ∨ raw.length = 22 ∨ raw.length = 23 ∨ raw.length = 24)
    (hk : 16 ≤ bindkey.length) :
    prepare_vector raw bindkey address = some
      { key := bindkey.take 16, plaintext := zeros16,
        ciphertext := (raw.drop (cipher_pos raw.length)).take (datasize raw.length)
          ++ List.replicate (16 - datasize raw.length) 0,
        authdata := 0x11 :: List.replicate 15 0,
        iv := mac_reverse address ++ (raw.drop 2).take 3 ++ (raw.drop (raw.length - 7)).take 3
          ++ [0, 0, 0, 0],
        tag := raw.drop (raw.length - 4) ++ List.replicate 12 0,
        keysize := 16, authsize := 1, datasize := datasize raw.length, tagsize := 4, ivsize := 12 } := by
  have h3 : (List.take 3 (List.drop 2 raw)).length = 3 := by
    rw [List.length_take, List.length_drop]; omega
  rcases hn with h | h | h | h <;>
    simp [prepare_vector, memcpy, h, hk, datasize, cipher_pos, zeros16, mac_reverse,
      List.drop_append_eq_append_drop, h3]

/-! ## Outcomes of `decrypt_qingping_payload` -/

theorem decrypt_rejected (m : Mbedtls) (raw bindkey : List Nat) (address : Nat)
    (hn : ¬ (raw.length = 19 ∨ raw.length = 22 ∨ raw.length = 23 ∨ raw.length = 24)) :
    decrypt_qingping_payload m raw bindkey address = some { ok := false, raw := raw, calls := [] } := by
  have h : ¬ (raw.length = 19 ∨ (raw.length ≥ 22 ∧ raw.length ≤ 24)) := by omega
  unfold decrypt_qingping_payload
  rw [if_pos h]

theorem decrypt_setkey_failed (m : Mbedtls) (raw bindkey : List Nat) (address : Nat)
    (v : QingpingAESVector)
    (hn : raw.length = 19 ∨ raw.length = 22 ∨ raw.length = 23 ∨ raw.length = 24)
    (hv : prepare_vector raw bindkey address = some v) (hs : call_setkey m v ≠ 0) :
    decrypt_qingping_payload m raw bindkey address = some
      { ok := false, raw := raw,
        calls := [.ccm_init, .ccm_setkey (v.key.take v.keysize) (v.keysize * 8), .ccm_free] } := by
  have h : ¬ ¬ (raw.length = 19 ∨ (raw.length ≥ 22 ∧ raw.length ≤ 24)) := by omega
  unfold decrypt_qingping_payload
  rw [if_neg h, hv]
  simp [hs]

theorem decrypt_auth_failed (m : Mbedtls) (raw bindkey : List Nat) (address : Nat)
    (v : QingpingAESVector)
    (hn : raw.length = 19 ∨ raw.length = 22 ∨ raw.length = 23 ∨ raw.length = 24)
    (hv : prepare_vector raw bindkey address = some v) (hs : call_setkey m v = 0)
    (ha : (call_auth_decrypt m v).1 ≠ 0) :
    decrypt_qingping_payload m raw bindkey address = some
      { ok := false, raw := raw,
        calls := [.ccm_init, .ccm_setkey (v.key.take v.keysize) (v.keysize * 8),
          .ccm_auth_decrypt v.datasize (v.iv.take v.ivsize) (v.authdata.take v.authsize)
            (v.ciphertext.take v.datasize) (v.tag.take v.tagsize), .ccm_free] } := by
  have h : ¬ ¬ (raw.length = 19 ∨ (raw.length ≥ 22 ∧ raw.length ≤ 24)) := by omega
  unfold decrypt_qingping_payload
  rw [if_neg h, hv]
  simp [hs, ha]

theorem decrypt_succeeded (m : Mbedtls) (raw bindkey : List Nat) (address : Nat)
    (v : QingpingAESVector)
    (hn : raw.length = 19 ∨ raw.length = 22 ∨ raw.length = 23 ∨ raw.length = 24)
    (hk : 16 ≤ bindkey.length)
    (hv : prepare_vector raw bindkey address = some v) (hs : call_setkey m v = 0)
    (ha : (call_auth_decrypt m v).1 = 0) :
    ∃ out b0, raw[0]? = some b0 ∧
      decrypt_qingping_payload m raw bindkey address = some
      { ok := true, raw := out,
        calls := [.ccm_init, .ccm_setkey (v.key.take v.keysize) (v.keysize * 8),
          .ccm_auth_decrypt v.datasize (v.iv.take v.ivsize) (v.authdata.take v.authsize)
            (v.ciphertext.take v.datasize) (v.tag.take v.tagsize), .ccm_free] } ∧
      out.length = raw.length ∧
      ∀ j, out[j]? =
        if j = 0 then some ((b0 &&& 0xF7) % 256)
        else if cipher_pos raw.length ≤ j ∧ j < cipher_pos raw.length + datasize raw.length then
          some ((call_auth_decrypt m v).2.getD (j - cipher_pos raw.length) 0)
        else raw[j]? := by
  have h : ¬ ¬ (raw.length = 19 ∨ (raw.length ≥ 22 ∧ raw.length ≤ 24)) := by omega
  have hv' := prepare_vector_accepted raw bindkey address hn hk
  rw [hv] at hv'
  have hvp : v.plaintext = zeros16 := by
    have := congrArg (Option.map QingpingAESVector.plaintext) hv'
    simpa using this
  have hvd : v.datasize = datasize raw.length := by
    have := congrArg (Option.map QingpingAESVector.datasize) hv'
    simpa using this
  have hbound : cipher_pos raw.length + datasize raw.length ≤ raw.length ∧
      datasize raw.length ≤ 16 ∧ 0 < cipher_pos raw.length := by
    rcases hn with e | e | e | e <;> simp [e, cipher_pos, datasize]
  obtain ⟨hb1, hb2, hb3⟩ := hbound
  have hz : zeros16.length = 16 := rfl
  obtain ⟨out1, ho1, hl1, hj1⟩ := copy_plaintext_spec (datasize raw.length) raw
    (store_output zeros16 (call_auth_decrypt m v).2 (datasize raw.length))
    (cipher_pos raw.length) 0 hb1
    (by rw [store_output_length _ _ _ (by rw [hz]; exact hb2), hz]; omega)
  have hpos : 0 < raw.length := by omega
  have hr0 : raw[0]? = some raw[0] := List.getElem?_eq_getElem hpos
  have ho0 : out1[0]? = some raw[0] := by
    rw [hj1 0, if_neg (by omega), hr0]
  refine ⟨out1.set 0 ((raw[0] &&& 0xF7) % 256), raw[0], hr0, ?_, by simpa using hl1, ?_⟩
  · unfold decrypt_qingping_payload
    rw [if_neg h, hv]
    simp [hs, ha, hvp, hvd, ho1, ho0]
  · intro j
    by_cases hj0 : j = 0
    · subst hj0
      simp [List.getElem?_set, hl1, hpos]
    · have hne : 0 ≠ j := fun e => hj0 e.symm
      rw [if_neg hj0, List.getElem?_set_ne hne, hj1 j]
      by_cases hr : cipher_pos raw.length ≤ j ∧ j < cipher_pos raw.length + datasize raw.length
      · rw [if_pos hr, if_pos hr, Nat.zero_add, store_output_getElem?]
        by_cases hp : j - cipher_pos raw.length < datasize raw.length ∧
            j - cipher_pos raw.length < (call_auth_decrypt m v).2.length
        · rw [if_pos hp, List.getElem?_eq_getElem hp.2, List.getD_eq_getElem _ _ hp.2]
        · have hlt : j - cipher_pos raw.length < 16 := by omega
          have hge : (call_auth_decrypt m v).2.length ≤ j - cipher_pos raw.length := by omega
          rw [if_neg hp, List.getD_eq_default _ _ hge]
          exact zeros16_getElem? _ hlt
      · rw [if_neg hr, if_neg hr]

theorem mac_reverse_mod (address : Nat) :
    mac_reverse (address % 2 ^ 48) = mac_reverse address := by
  have e : ∀ k, k ≤ 40 → ((address % 2 ^ 48) >>> k) % 256 = (address >>> k) % 256 := by
    intro k hk
    have hk' : 48 = k + (48 - k) := by omega
    have hd : 256 ∣ 2 ^ (48 - k) := by
      have : (256 : Nat) = 2 ^ 8 := by norm_num
      rw [this]
      exact Nat.pow_dvd_pow 2 (by omega)
    rw [Nat.shiftRight_eq_div_pow, Nat.shiftRight_eq_div_pow]
    conv_lhs => rw [hk', Nat.pow_add, Nat.mod_mul_right_div_self]
    exact Nat.mod_mod_of_dvd _ hd
  simp only [mac_reverse]
  rw [e 0 (by omega), e 8 (by omega), e 16 (by omega), e 24 (by omega), e 32 (by omega),
    e 40 (by omega)]

theorem mac_reverse_getElem? (address i : Nat) (h : i < 6) :
    (mac_reverse address)[i]? = some ((address >>> (8 * i)) &&& 0xFF) := by
  have e : ∀ x : Nat, x &&& 0xFF = x % 256 := fun x => Nat.and_pow_two_sub_one_eq_mod x 8
  interval_cases i <;> simp [mac_reverse, e]

/-! ## The decryptor: claims C1 to C6 -/

/-- C1. `decrypt_qingping_payload` passes its length check exactly for the record
lengths 19, 22, 23 and 24.  For any other length it returns `false` for every
key and address, makes no mbedTLS call and leaves the record as it was.  For an
accepted length (and a key of at least 16 readable bytes) it runs to completion,
does call mbedTLS, and returns `true` exactly when both `mbedtls_ccm_setkey` and
`mbedtls_ccm_auth_decrypt` return 0. -/
theorem C1_length_check (m : Mbedtls) (raw bindkey : List Nat) (address : Nat) :
    (¬ (raw.length = 19 ∨ raw.length = 22 ∨ raw.length = 23 ∨ raw.length = 24) →
      decrypt_qingping_payload m raw bindkey address =
        some { ok := false, raw := raw, calls := [] }) ∧
    ((raw.length = 19 ∨ raw.length = 22 ∨ raw.length = 23 ∨ raw.length = 24) →
      16 ≤ bindkey.length →
      ∃ v out, prepare_vector raw bindkey address = some v ∧
        decrypt_qingping_payload m raw bindkey address = some out ∧
        out.calls ≠ [] ∧
        (out.ok = true ↔ (call_setkey m v = 0 ∧ (call_auth_decrypt m v).1 = 0))) := by
  refine ⟨decrypt_rejected m raw bindkey address, fun hn hk => ?_⟩
  obtain ⟨v, hv⟩ : ∃ v, prepare_vector raw bindkey address = some v :=
    ⟨_, prepare_vector_accepted raw bindkey address hn hk⟩
  by_cases hs : call_setkey m v = 0
  · by_cases ha : (call_auth_decrypt m v).1 = 0
    · obtain ⟨out, b0, _, hd, _, _⟩ := decrypt_succeeded m raw bindkey address v hn hk hv hs ha
      exact ⟨v, _, hv, hd, by simp, by simp [hs, ha]⟩
    · exact ⟨v, _, hv, decrypt_auth_failed m raw bindkey address v hn hv hs ha, by simp,
        by simp [ha]⟩
  · exact ⟨v, _, hv, decrypt_setkey_failed m raw bindkey address v hn hv hs, by simp,
      by simp [hs]⟩

/-- Instance of C1: a 20-byte record is rejected without a cipher call, and the
19-byte `sample_record19` is accepted by the length check. -/
theorem C1_length_check_witness :
    decrypt_qingping_payload toy_ccm sample_record20 sample_key sample_address =
        some { ok := false, raw := sample_record20, calls := [] } ∧
    ∃ v out, prepare_vector sample_record19 sample_key sample_address = some v ∧
        decrypt_qingping_payload toy_ccm sample_record19 sample_key sample_address = some out ∧
        out.calls ≠ [] ∧
        (out.ok = true ↔ (call_setkey toy_ccm v = 0 ∧ (call_auth_decrypt toy_ccm v).1 = 0)) :=
  ⟨(C1_length_check toy_ccm sample_record20 sample_key sample_address).1 (by decide),
   (C1_length_check toy_ccm sample_record19 sample_key sample_address).2 (by decide) (by decide)⟩

/-- C2. For a record of accepted length, when `mbedtls_ccm_setkey` or
`mbedtls_ccm_auth_decrypt` reports failure (a non-zero return code) on the
parameters prepared from the record, `decrypt_qingping_payload` returns `false`
and the record afterwards is the record before: same length, same bytes,
byte 0 included. -/
theorem C2_failure_leaves_record (m : Mbedtls) (raw bindkey : List Nat) (address : Nat)
    (v : QingpingAESVector)
    (hn : raw.length = 19 ∨ raw.length = 22 ∨ raw.length = 23 ∨ raw.length = 24)
    (hv : prepare_vector raw bindkey address = some v)
    (hfail : call_setkey m v ≠ 0 ∨ (call_auth_decrypt m v).1 ≠ 0) :
    ∃ calls, decrypt_qingping_payload m raw bindkey address =
      some { ok := false, raw := raw, calls := calls } := by
  by_cases hs : call_setkey m v = 0
  · rcases hfail with h | h
    · exact absurd hs h
    · exact ⟨_, decrypt_auth_failed m raw bindkey address v hn hv hs h⟩
  · exact ⟨_, decrypt_setkey_failed m raw bindkey address v hn hv hs⟩

/-- Instance of C2: the tag of `tampered_record19` does not verify under
`toy_ccm`, and the record is returned as it was. -/
theorem C2_failure_leaves_record_witness :
    ∃ calls, decrypt_qingping_payload toy_ccm tampered_record19 sample_key sample_address =
      some { ok := false, raw := tampered_record19, calls := calls } :=
  C2_failure_leaves_record toy_ccm tampered_record19 sample_key sample_address
    { key := sample_key, plaintext := zeros16,
      ciphertext := [0x0D, 0x10, 0x04, 0x0A, 0x00, 0x96, 0x01, 0, 0, 0, 0, 0, 0, 0, 0, 0],
      authdata := [0x11, 0, 0, 0, 0, 0, 0, 0, 0, 0, 0, 0, 0, 0, 0, 0],
      iv := [0x5A, 0x6E, 0x10, 0x34, 0x2D, 0x58, 0x47, 0x03, 0x21, 0xC1, 0xC2, 0xC3, 0, 0, 0, 0],
      tag := [0x01, 0x02, 0x03, 0x05, 0, 0, 0, 0, 0, 0, 0, 0, 0, 0, 0, 0],
      keysize := 16, authsize := 1, datasize := 7, tagsize := 4, ivsize := 12 }
    (by decide) (by decide) (by decide)

theorem clear_flag_bits (b0 : Nat) :
    (b0 &&& 0xF7) % 256 < 256 ∧ ((b0 &&& 0xF7) % 256).testBit 3 = false ∧
    ∀ k, k < 8 → k ≠ 3 → ((b0 &&& 0xF7) % 256).testBit k = b0.testBit k := by
  have e : (256 : Nat) = 2 ^ 8 := by norm_num
  refine ⟨Nat.mod_lt _ (by norm_num), ?_, fun k hk hk3 => ?_⟩
  · rw [e, Nat.testBit_mod_two_pow, Nat.testBit_and]
    have : Nat.testBit 0xF7 3 = false := by decide
    simp [this]
  · rw [e, Nat.testBit_mod_two_pow, Nat.testBit_and]
    have : Nat.testBit 0xF7 k = true := by
      interval_cases k <;> first | exact absurd rfl hk3 | decide
    simp [this, hk]

theorem decrypt_success_effect (m : Mbedtls) (raw bindkey P : List Nat) (address : Nat)
    (v : QingpingAESVector)
    (hn : raw.length = 19 ∨ raw.length = 22 ∨ raw.length = 23 ∨ raw.length = 24)
    (hk : 16 ≤ bindkey.length)
    (hv : prepare_vector raw bindkey address = some v)
    (hs : call_setkey m v = 0)
    (ha : call_auth_decrypt m v = (0, P))
    (hP : datasize raw.length ≤ P.length) :
    ∃ out calls b0 o0,
      decrypt_qingping_payload m raw bindkey address =
        some { ok := true, raw := out, calls := calls } ∧
      out.length = raw.length ∧
      (out.drop (cipher_pos raw.length)).take (datasize raw.length) = P.take (datasize raw.length) ∧
      raw[0]? = some b0 ∧ out[0]? = some o0 ∧ o0 < 256 ∧ o0.testBit 3 = false ∧
      (∀ k, k < 8 → k ≠ 3 → o0.testBit k = b0.testBit k) ∧
      (∀ j, j ≠ 0 →
        ¬ (cipher_pos raw.length ≤ j ∧ j < cipher_pos raw.length + datasize raw.length) →
        out[j]? = raw[j]?) ∧
      (raw.length = 19 → cipher_pos raw.length = 5 ∧ datasize raw.length = 7) ∧
      (raw.length ≠ 19 → cipher_pos raw.length = 11 ∧ datasize raw.length = raw.length - 18) := by
  have ha1 : (call_auth_decrypt m v).1 = 0 := by rw [ha]
  have ha2 : (call_auth_decrypt m v).2 = P := by rw [ha]
  obtain ⟨out, b0, hb0, hd, hl, hj⟩ := decrypt_succeeded m raw bindkey address v hn hk hv hs ha1
  obtain ⟨c1, c2, c3⟩ := clear_flag_bits b0
  have hcp : 0 < cipher_pos raw.length := by
    unfold cipher_pos; split <;> omega
  refine ⟨out, _, b0, (b0 &&& 0xF7) % 256, hd, hl, ?_, hb0, ?_, c1, c2, c3, ?_, ?_, ?_⟩
  · apply List.ext_getElem?
    intro i
    by_cases hi : i < datasize raw.length
    · rw [List.getElem?_take_of_lt hi, List.getElem?_take_of_lt hi, List.getElem?_drop, hj,
        if_neg (by omega), if_pos (by omega), ha2]
      have hiP : i < P.length := by omega
      have e : cipher_pos raw.length + i - cipher_pos raw.length = i := by omega
      rw [e, List.getD_eq_getElem _ _ hiP, List.getElem?_eq_getElem hiP]
    · rw [List.getElem?_take_eq_none (by omega), List.getElem?_take_eq_none (by omega)]
  · rw [hj 0, if_pos rfl]
  · intro j hj0 hjr
    rw [hj j, if_neg hj0, if_neg hjr]
  · intro e
    simp [e, cipher_pos, datasize]
  · intro e
    simp [e, cipher_pos, datasize]

/-- C3. For a record of accepted length `n` on which `mbedtls_ccm_setkey`
succeeds and `mbedtls_ccm_auth_decrypt` succeeds with output `P` (at least
`datasize` bytes), `decrypt_qingping_payload` returns `true`; the record
afterwards has length `n`, holds `P[0..datasize)` at
`[cipher_pos, cipher_pos + datasize)`, has in byte 0 the old byte 0 with bit 3
cleared and the other seven bits kept, and is unchanged at every other index.
Here `cipher_pos = 5`, `datasize = 7` for `n = 19`, and `cipher_pos = 11`,
`datasize = n - 18` otherwise. -/
theorem C3_success_effect (m : Mbedtls) (raw bindkey P : List Nat) (address : Nat)
    (v : QingpingAESVector)
    (hn : raw.length = 19 ∨ raw.length = 22 ∨ raw.length = 23 ∨ raw.length = 24)
    (hk : 16 ≤ bindkey.length)
    (hv : prepare_vector raw bindkey address = some v)
    (hs : call_setkey m v = 0)
    (ha : call_auth_decrypt m v = (0, P))
    (hP : datasize raw.length ≤ P.length) :
    ∃ out calls b0 o0,
      decrypt_qingping_payload m raw bindkey address =
        some { ok := true, raw := out, calls := calls } ∧
      out.length = raw.length ∧
      (out.drop (cipher_pos raw.length)).take (datasize raw.length) = P.take (datasize raw.length) ∧
      raw[0]? = some b0 ∧ out[0]? = some o0 ∧ o0 < 256 ∧ o0.testBit 3 = false ∧
      (∀ k, k < 8 → k ≠ 3 → o0.testBit k = b0.testBit k) ∧
      (∀ j, j ≠ 0 →
        ¬ (cipher_pos raw.length ≤ j ∧ j < cipher_pos raw.length + datasize raw.length) →
        out[j]? = raw[j]?) ∧
      (raw.length = 19 → cipher_pos raw.length = 5 ∧ datasize raw.length = 7) ∧
      (raw.length ≠ 19 → cipher_pos raw.length = 11 ∧ datasize raw.length = raw.length - 18) :=
  decrypt_success_effect m raw bindkey P address v hn hk hv hs ha hP

/-- Instance of C3: `sample_record19` decrypts under `toy_ccm`. -/
theorem C3_success_effect_witness :
    ∃ out calls b0 o0,
      decrypt_qingping_payload toy_ccm sample_record19 sample_key sample_address =
        some { ok := true, raw := out, calls := calls } ∧
      out.length = sample_record19.length ∧
      (out.drop (cipher_pos sample_record19.length)).take (datasize sample_record19.length) =
        [0x0D, 0x10, 0x04, 0x0A, 0x00, 0x96, 0x01].take (datasize sample_record19.length) ∧
      sample_record19[0]? = some b0 ∧ out[0]? = some o0 ∧ o0 < 256 ∧ o0.testBit 3 = false ∧
      (∀ k, k < 8 → k ≠ 3 → o0.testBit k = b0.testBit k) ∧
      (∀ j, j ≠ 0 →
        ¬ (cipher_pos sample_record19.length ≤ j ∧
          j < cipher_pos sample_record19.length + datasize sample_record19.length) →
        out[j]? = sample_record19[j]?) ∧
      (sample_record19.length = 19 →
        cipher_pos sample_record19.length = 5 ∧ datasize sample_record19.length = 7) ∧
      (sample_record19.length ≠ 19 →
        cipher_pos sample_record19.length = 11 ∧
        datasize sample_record19.length = sample_record19.length - 18) :=
  C3_success_effect toy_ccm sample_record19 sample_key [0x0D, 0x10, 0x04, 0x0A, 0x00, 0x96, 0x01]
    sample_address
    { key := sample_key, plaintext := zeros16,
      ciphertext := [0x0D, 0x10, 0x04, 0x0A, 0x00, 0x96, 0x01, 0, 0, 0, 0, 0, 0, 0, 0, 0],
      authdata := [0x11, 0, 0, 0, 0, 0, 0, 0, 0, 0, 0, 0, 0, 0, 0, 0],
      iv := [0x5A, 0x6E, 0x10, 0x34, 0x2D, 0x58, 0x47, 0x03, 0x21, 0xC1, 0xC2, 0xC3, 0, 0, 0, 0],
      tag := [0x01, 0x02, 0x03, 0x04, 0, 0, 0, 0, 0, 0, 0, 0, 0, 0, 0, 0],
      keysize := 16, authsize := 1, datasize := 7, tagsize := 4, ivsize := 12 }
    (by decide) (by decide) (by decide) (by decide) (by decide) (by decide)

theorem decrypt_address_mod (m : Mbedtls) (raw bindkey : List Nat) (address : Nat) :
    decrypt_qingping_payload m raw bindkey (address % 2 ^ 48) =
      decrypt_qingping_payload m raw bindkey address := by
  simp only [decrypt_qingping_payload, prepare_vector, mac_reverse_mod]

theorem prepare_vector_slices (raw bindkey : List Nat) (address : Nat)
    (hn : raw.length = 19 ∨ raw.length = 22 ∨ raw.length = 23 ∨ raw.length = 24)
    (hk : 16 ≤ bindkey.length) :
    ∃ v, prepare_vector raw bindkey address = some v ∧
      v.key.take v.keysize = bindkey.take 16 ∧ v.keysize * 8 = 128 ∧
      v.datasize = datasize raw.length ∧
      v.iv.take v.ivsize =
        mac_reverse address ++ (raw.drop 2).take 3 ++ (raw.drop (raw.length - 7)).take 3 ∧
      v.authdata.take v.authsize = [0x11] ∧
      v.ciphertext.take v.datasize =
        (raw.drop (cipher_pos raw.length)).take (datasize raw.length) ∧
      v.tag.take v.tagsize = raw.drop (raw.length - 4) := by
  have hv := prepare_vector_accepted raw bindkey address hn hk
  have hmac : (mac_reverse address).length = 6 := rfl
  have h23 : ((raw.drop 2).take 3).length = 3 := by
    rw [List.length_take, List.length_drop]; omega
  have h73 : ((raw.drop (raw.length - 7)).take 3).length = 3 := by
    rw [List.length_take, List.length_drop]; omega
  have hct : ((raw.drop (cipher_pos raw.length)).take (datasize raw.length)).length =
      datasize raw.length := by
    rw [List.length_take, List.length_drop]
    rcases hn with e | e | e | e <;> simp [e, cipher_pos, datasize]
  have htag : (raw.drop (raw.length - 4)).length = 4 := by
    rw [List.length_drop]; omega
  refine ⟨_, hv, ?_, rfl, rfl, ?_, rfl, ?_, ?_⟩
  · show List.take 16 (List.take 16 bindkey) = List.take 16 bindkey
    rw [List.take_take]; simp
  · show List.take 12 (mac_reverse address ++ (raw.drop 2).take 3 ++
      (raw.drop (raw.length - 7)).take 3 ++ [0, 0, 0, 0]) = _
    rw [List.take_append_eq_append_take, List.take_of_length_le (by simp [hmac, h23, h73])]
    simp [hmac, h23, h73]
  · show List.take (datasize raw.length)
      ((raw.drop (cipher_pos raw.length)).take (datasize raw.length) ++
        List.replicate (16 - datasize raw.length) 0) = _
    rw [List.take_append_eq_append_take, List.take_of_length_le (by rw [hct])]
    simp [hct]
  · show List.take 4 (raw.drop (raw.length - 4) ++ List.replicate 12 0) = _
    rw [List.take_append_eq_append_take, List.take_of_length_le (by rw [htag])]
    simp [htag]

/-- C4. For a record of accepted length `n`, a key of (at least) 16 bytes and any
address, the mbedTLS calls of `decrypt_qingping_payload` are `ccm_init`,
`ccm_setkey` with the first 16 key bytes and 128 key bits, then (when the key
was accepted) `ccm_auth_decrypt`, then `ccm_free`.  The `ccm_auth_decrypt` call
gets length `datasize`, a 12-byte nonce `iv` with
`iv[i] = (address >> 8*i) & 0xFF` for `i < 6` and `iv[6..9) = raw[2..5)`, the
associated data `[0x11]`, the ciphertext `raw[cipher_pos, cipher_pos + datasize)`
and the 4-byte tag `raw[n-4, n)`; `cipher_pos = 5`, `datasize = 7` for `n = 19`
and `cipher_pos = 11`, `datasize = n - 18` otherwise.  Bits 48 and up of the
address have no influence on the run. -/
theorem C4_ccm_parameters (m : Mbedtls) (raw bindkey : List Nat) (address : Nat)
    (hn : raw.length = 19 ∨ raw.length = 22 ∨ raw.length = 23 ∨ raw.length = 24)
    (hk : 16 ≤ bindkey.length) :
    ∃ out iv,
      decrypt_qingping_payload m raw bindkey address = some out ∧
      out.calls =
        [MbedtlsCall.ccm_init, MbedtlsCall.ccm_setkey (bindkey.take 16) 128] ++
        (if m.ccm_setkey (bindkey.take 16) 128 = 0 then
          [MbedtlsCall.ccm_auth_decrypt (datasize raw.length) iv [0x11]
            ((raw.drop (cipher_pos raw.length)).take (datasize raw.length))
            (raw.drop (raw.length - 4))]
         else []) ++
        [MbedtlsCall.ccm_free] ∧
      (bindkey.take 16).length = 16 ∧
      iv.length = 12 ∧
      (∀ i, i < 6 → iv[i]? = some ((address >>> (8 * i)) &&& 0xFF)) ∧
      (iv.drop 6).take 3 = (raw.drop 2).take 3 ∧
      ((raw.drop (cipher_pos raw.length)).take (datasize raw.length)).length = datasize raw.length ∧
      (raw.drop (raw.length - 4)).length = 4 ∧
      (raw.length = 19 → cipher_pos raw.length = 5 ∧ datasize raw.length = 7) ∧
      (raw.length ≠ 19 → cipher_pos raw.length = 11 ∧ datasize raw.length = raw.length - 18) ∧
      decrypt_qingping_payload m raw bindkey (address % 2 ^ 48) = some out := by
  obtain ⟨v, hv, vkey, vbits, vds, viv, vad, vct, vtag⟩ :=
    prepare_vector_slices raw bindkey address hn hk
  have hmac : (mac_reverse address).length = 6 := rfl
  have h23 : ((raw.drop 2).take 3).length = 3 := by
    rw [List.length_take, List.length_drop]; omega
  have h73 : ((raw.drop (raw.length - 7)).take 3).length = 3 := by
    rw [List.length_take, List.length_drop]; omega
  have hct : ((raw.drop (cipher_pos raw.length)).take (datasize raw.length)).length =
      datasize raw.length := by
    rw [List.length_take, List.length_drop]
    rcases hn with e | e | e | e <;> simp [e, cipher_pos, datasize]
  have htag : (raw.drop (raw.length - 4)).length = 4 := by
    rw [List.length_drop]; omega
  have hkey : (bindkey.take 16).length = 16 := by
    rw [List.length_take]; omega
  have hsk : call_setkey m v = m.ccm_setkey (bindkey.take 16) 128 := by
    unfold call_setkey; rw [vkey, vbits]
  obtain ⟨out, hout, hcalls⟩ : ∃ out, decrypt_qingping_payload m raw bindkey address = some out ∧
      out.calls =
        [MbedtlsCall.ccm_init, MbedtlsCall.ccm_setkey (bindkey.take 16) 128] ++
        (if m.ccm_setkey (bindkey.take 16) 128 = 0 then
          [MbedtlsCall.ccm_auth_decrypt (datasize raw.length)
            (mac_reverse address ++ (raw.drop 2).take 3 ++ (raw.drop (raw.length - 7)).take 3)
            [0x11] ((raw.drop (cipher_pos raw.length)).take (datasize raw.length))
            (raw.drop (raw.length - 4))]
         else []) ++
        [MbedtlsCall.ccm_free] := by
    by_cases hs : call_setkey m v = 0
    · by_cases ha : (call_auth_decrypt m v).1 = 0
      · obtain ⟨o, b0, _, hd, _, _⟩ := decrypt_succeeded m raw bindkey address v hn hk hv hs ha
        refine ⟨_, hd, ?_⟩
        rw [if_pos (hsk ▸ hs), vkey, vbits, vct, vds, viv, vad, vtag]
        rfl
      · refine ⟨_, decrypt_auth_failed m raw bindkey address v hn hv hs ha, ?_⟩
        rw [if_pos (hsk ▸ hs), vkey, vbits, vct, vds, viv, vad, vtag]
        rfl
    · refine ⟨_, decrypt_setkey_failed m raw bindkey address v hn hv hs, ?_⟩
      rw [if_neg (hsk ▸ hs), vkey, vbits]
      rfl
  refine ⟨out, _, hout, hcalls, hkey, by simp [hmac, h23, h73], ?_, ?_, hct, htag, ?_, ?_, ?_⟩
  · intro i hi
    rw [List.append_assoc, List.getElem?_append_left (by rw [hmac]; exact hi)]
    exact mac_reverse_getElem? address i hi
  · rw [List.append_assoc, List.drop_append_of_le_length (by rw [hmac]),
      List.drop_of_length_le (by rw [hmac]), List.nil_append,
      List.take_append_of_le_length (by rw [h23]), List.take_of_length_le (by rw [h23])]
  · intro e
    simp [e, cipher_pos, datasize]
  · intro e
    simp [e, cipher_pos, datasize]
  · rw [decrypt_address_mod, hout]

/-- Instance of C4 on `sample_record19`. -/
theorem C4_ccm_parameters_witness :
    ∃ out iv,
      decrypt_qingping_payload toy_ccm sample_record19 sample_key sample_address = some out ∧
      out.calls =
        [MbedtlsCall.ccm_init, MbedtlsCall.ccm_setkey (sample_key.take 16) 128] ++
        (if toy_ccm.ccm_setkey (sample_key.take 16) 128 = 0 then
          [MbedtlsCall.ccm_auth_decrypt (datasize sample_record19.length) iv [0x11]
            ((sample_record19.drop (cipher_pos sample_record19.length)).take
              (datasize sample_record19.length))
            (sample_record19.drop (sample_record19.length - 4))]
         else []) ++
        [MbedtlsCall.ccm_free] ∧
      (sample_key.take 16).length = 16 ∧
      iv.length = 12 ∧
      (∀ i, i < 6 → iv[i]? = some ((sample_address >>> (8 * i)) &&& 0xFF)) ∧
      (iv.drop 6).take 3 = (sample_record19.drop 2).take 3 ∧
      ((sample_record19.drop (cipher_pos sample_record19.length)).take
        (datasize sample_record19.length)).length = datasize sample_record19.length ∧
      (sample_record19.drop (sample_record19.length - 4)).length = 4 ∧
      (sample_record19.length = 19 →
        cipher_pos sample_record19.length = 5 ∧ datasize sample_record19.length = 7) ∧
      (sample_record19.length ≠ 19 →
        cipher_pos sample_record19.length = 11 ∧
        datasize sample_record19.length = sample_record19.length - 18) ∧
      decrypt_qingping_payload toy_ccm sample_record19 sample_key (sample_address % 2 ^ 48) =
        some out :=
  C4_ccm_parameters toy_ccm sample_record19 sample_key sample_address (by decide) (by decide)

/-- C5, as stated, fails on the record whose bytes are `0, 1, …, 18`: nonce bytes
`[9..12)` are `12, 13, 14`, the record bytes at `[n-7, n-4)`; the 3-byte slice
that ends at index `n-7 = 12` holds `9, 10, 11` (and `10, 11, 12` when the end
index is counted in). -/
theorem C5_counterexample :
    (prepare_vector index_record19 sample_key sample_address).map
        (fun v => (v.iv.take v.ivsize).drop 9) = some [12, 13, 14] ∧
    (index_record19.drop (index_record19.length - 7 - 3)).take 3 = [9, 10, 11] ∧
    (index_record19.drop (index_record19.length - 7 - 2)).take 3 = [10, 11, 12] ∧
    ¬ ((prepare_vector index_record19 sample_key sample_address).map
        (fun v => (v.iv.take v.ivsize).drop 9) =
      some ((index_record19.drop (index_record19.length - 7 - 3)).take 3)) := by
  decide

/-- C5, amended. For a record of accepted length `n`, the nonce prepared by
`decrypt_qingping_payload` has 12 bytes and its bytes `[9..12)` are the record
bytes `[n-7, n-4)`: the 3 bytes that start 7 bytes before the end of the record
and end where the 4-byte tag begins. -/
theorem C5_nonce_counter (raw bindkey : List Nat) (address : Nat)
    (hn : raw.length = 19 ∨ raw.length = 22 ∨ raw.length = 23 ∨ raw.length = 24)
    (hk : 16 ≤ bindkey.length) :
    ∃ v, prepare_vector raw bindkey address = some v ∧
      (v.iv.take v.ivsize).length = 12 ∧
      (v.iv.take v.ivsize).drop 9 = (raw.drop (raw.length - 7)).take 3 ∧
      ∀ i, i < 3 → (v.iv.take v.ivsize)[9 + i]? = raw[raw.length - 7 + i]? ∧
        raw.length - 7 + i < raw.length - 4 := by
  obtain ⟨v, hv, _, _, _, viv, _, _, _⟩ := prepare_vector_slices raw bindkey address hn hk
  have hmac : (mac_reverse address).length = 6 := rfl
  have h23 : ((raw.drop 2).take 3).length = 3 := by
    rw [List.length_take, List.length_drop]; omega
  have h73 : ((raw.drop (raw.length - 7)).take 3).length = 3 := by
    rw [List.length_take, List.length_drop]; omega
  have h9 : (mac_reverse address ++ (raw.drop 2).take 3).length = 9 := by
    rw [List.length_append, hmac, h23]
  refine ⟨v, hv, ?_, ?_, fun i hi => ⟨?_, by omega⟩⟩
  · rw [viv, List.length_append, h9, h73]
  · rw [viv, List.drop_append_of_le_length (by rw [h9]), List.drop_of_length_le (by rw [h9]),
      List.nil_append]
  · rw [viv, List.getElem?_append_right (by rw [h9]; omega), h9,
      List.getElem?_take_of_lt (by omega), List.getElem?_drop]
    congr 1
    omega

/-- Instance of C5 (amended) on `index_record19`. -/
theorem C5_nonce_counter_witness :
    ∃ v, prepare_vector index_record19 sample_key sample_address = some v ∧
      (v.iv.take v.ivsize).length = 12 ∧
      (v.iv.take v.ivsize).drop 9 = (index_record19.drop (index_record19.length - 7)).take 3 ∧
      ∀ i, i < 3 → (v.iv.take v.ivsize)[9 + i]? = index_record19[index_record19.length - 7 + i]? ∧
        index_record19.length - 7 + i < index_record19.length - 4 :=
  C5_nonce_counter index_record19 sample_key sample_address (by decide) (by decide)

theorem toy_round_trip : RoundTrip toy_ccm toy_encrypt := by
  intro key nonce add plaintext hk
  simp [ccm_decrypt, toy_ccm, toy_encrypt, hk]

/-- C6. Round trip.  Let `encrypt` and the primitive `m` satisfy the round-trip
law.  For a record of accepted length `n`, a 16-byte key, an address and a
plaintext `P` of `datasize` bytes: if the record holds at
`[cipher_pos, cipher_pos + datasize)` the ciphertext, and in its last 4 bytes
the tag, of `P` encrypted under the key, the nonce `decrypt_qingping_payload`
prepares from this record and address, and associated data `[0x11]`, then
`decrypt_qingping_payload` returns `true`, the record afterwards holds `P` at
`[cipher_pos, cipher_pos + datasize)`, and bit 3 of its byte 0 is clear. -/
theorem C6_round_trip (m : Mbedtls)
    (encrypt : List Nat → List Nat → List Nat → List Nat → List Nat × List Nat)
    (raw bindkey P : List Nat) (address : Nat) (v : QingpingAESVector)
    (hrt : RoundTrip m encrypt)
    (hn : raw.length = 19 ∨ raw.length = 22 ∨ raw.length = 23 ∨ raw.length = 24)
    (hk : bindkey.length = 16)
    (hP : P.length = datasize raw.length)
    (hv : prepare_vector raw bindkey address = some v)
    (hct : (raw.drop (cipher_pos raw.length)).take (datasize raw.length) =
      (encrypt bindkey (v.iv.take v.ivsize) [0x11] P).1)
    (htag : raw.drop (raw.length - 4) = (encrypt bindkey (v.iv.take v.ivsize) [0x11] P).2) :
    ∃ out calls o0,
      decrypt_qingping_payload m raw bindkey address =
        some { ok := true, raw := out, calls := calls } ∧
      (out.drop (cipher_pos raw.length)).take (datasize raw.length) = P ∧
      out[0]? = some o0 ∧ o0.testBit 3 = false := by
  obtain ⟨v', hv', vkey, vbits, vds, _, vad, vct, vtag⟩ :=
    prepare_vector_slices raw bindkey address hn (by omega)
  have hvv : v' = v := by
    rw [hv] at hv'; exact (Option.some.inj hv').symm
  subst hvv
  have hkey : bindkey.take 16 = bindkey := List.take_of_length_le (by omega)
  have hlen : (encrypt bindkey (v'.iv.take v'.ivsize) [0x11] P).1.length = datasize raw.length := by
    rw [← hct, List.length_take, List.length_drop]
    rcases hn with e | e | e | e <;> simp [e, cipher_pos, datasize]
  have h := hrt bindkey (v'.iv.take v'.ivsize) [0x11] P hk
  unfold ccm_decrypt at h
  rw [hlen, hk] at h
  by_cases hs : m.ccm_setkey bindkey (16 * 8) = 0
  · rw [if_neg (by simpa using hs)] at h
    by_cases ha : (m.ccm_auth_decrypt bindkey (datasize raw.length) (v'.iv.take v'.ivsize) [0x11]
        (encrypt bindkey (v'.iv.take v'.ivsize) [0x11] P).1
        (encrypt bindkey (v'.iv.take v'.ivsize) [0x11] P).2).1 = 0
    · rw [if_neg (by simpa using ha)] at h
      have h2 := Option.some.inj h
      have hs' : call_setkey m v' = 0 := by
        unfold call_setkey; rw [vkey, vbits, hkey]; exact hs
      have ha' : call_auth_decrypt m v' = (0, P) := by
        unfold call_auth_decrypt
        rw [vkey, hkey, vct, vds, vad, vtag, hct, htag]
        exact Prod.ext ha h2
      obtain ⟨out, calls, b0, o0, hd, _, hslice, _, ho0, _, hbit, _⟩ :=
        decrypt_success_effect m raw bindkey P address v' hn (by omega) hv hs' ha' (by omega)
      refine ⟨out, calls, o0, hd, ?_, ho0, hbit⟩
      rw [hslice, List.take_of_length_le (by omega)]
    · rw [if_pos (by simpa using ha)] at h
      exact absurd h (by simp)
  · rw [if_pos (by simpa using hs)] at h
    exact absurd h (by simp)

/-- Instance of C6: `sample_record19` carries the `toy_encrypt` encryption of
`[0x0D, 0x10, 0x04, 0x0A, 0x00, 0x96, 0x01]`. -/
theorem C6_round_trip_witness :
    ∃ out calls o0,
      decrypt_qingping_payload toy_ccm sample_record19 sample_key sample_address =
        some { ok := true, raw := out, calls := calls } ∧
      (out.drop (cipher_pos sample_record19.length)).take (datasize sample_record19.length) =
        [0x0D, 0x10, 0x04, 0x0A, 0x00, 0x96, 0x01] ∧
      out[0]? = some o0 ∧ o0.testBit 3 = false :=
  C6_round_trip toy_ccm toy_encrypt sample_record19 sample_key
    [0x0D, 0x10, 0x04, 0x0A, 0x00, 0x96, 0x01] sample_address
    { key := sample_key, plaintext := zeros16,
      ciphertext := [0x0D, 0x10, 0x04, 0x0A, 0x00, 0x96, 0x01, 0, 0, 0, 0, 0, 0, 0, 0, 0],
      authdata := [0x11, 0, 0, 0, 0, 0, 0, 0, 0, 0, 0, 0, 0, 0, 0, 0],
      iv := [0x5A, 0x6E, 0x10, 0x34, 0x2D, 0x58, 0x47, 0x03, 0x21, 0xC1, 0xC2, 0xC3, 0, 0, 0, 0],
      tag := [0x01, 0x02, 0x03, 0x04, 0, 0, 0, 0, 0, 0, 0, 0, 0, 0, 0, 0],
      keysize := 16, authsize := 1, datasize := 7, tagsize := 4, ivsize := 12 }
    toy_round_trip (by decide) (by decide) (by decide) (by decide) (by decide) (by decide)

/-! ## The header classifier: claims C7 to C9 -/

theorem and_two_pow_ne_zero (b k : Nat) : ((b &&& 2 ^ k) != 0) = b.testBit k := by
  cases h : b.testBit k
  · have : b &&& 2 ^ k = 0 := by
      apply Nat.eq_of_testBit_eq
      intro i
      rw [Nat.testBit_and, Nat.testBit_two_pow, Nat.zero_testBit]
      by_cases hki : k = i
      · subst hki; simp [h]
      · simp [hki]
    simp [this]
  · have : b &&& 2 ^ k ≠ 0 := by
      intro h0
      have h1 : (b &&& 2 ^ k).testBit k = true := by
        rw [Nat.testBit_and, Nat.testBit_two_pow, h]; simp
      rw [h0, Nat.zero_testBit] at h1
      exact absurd h1 (by simp)
    simpa using this

theorem header_has_data_eq (raw0 : Nat) :
    header_has_data raw0 = (raw0.testBit 6 || raw0.testBit 3) := by
  unfold header_has_data
  have e6 := and_two_pow_ne_zero raw0 6
  have e3 := and_two_pow_ne_zero raw0 3
  norm_num at e6 e3
  rw [← e6, ← e3]

theorem header_unrecognised (uuid : ESPBTUUID) (data : List Nat) (c : Nat)
    (h1 : uuid.contains 0x95 0xFE = false) (h2 : uuid.contains 0xCD 0xFD = false) :
    parse_qingping_header { uuid := uuid, data := data } c = some (none, c) := by
  simp [parse_qingping_header, h1, h2]

theorem header_recognised (uuid : ESPBTUUID) (a0 a1 a2 a3 a4 : Nat) (rest : List Nat) (c : Nat)
    (hu : uuid.contains 0x95 0xFE = true ∨ uuid.contains 0xCD 0xFD = true) :
    parse_qingping_header { uuid := uuid, data := a0 :: a1 :: a2 :: a3 :: a4 :: rest } c =
      if header_has_data a0 = false then some (none, c)
      else if a0 = 0x08 ∧ a1 = 0x01 then
        some (some { QingpingParseResult.declared with
          type := .TYPE_CGG1, name := "CGG1", has_data := header_has_data a0,
          has_capability := header_has_capability a0, has_encryption := false,
          is_duplicate := false, raw_offset := 8 }, a4)
      else some (none, a4) := by
  have hu' : (!uuid.contains 0x95 0xFE && !uuid.contains 0xCD 0xFD) = false := by
    rcases hu with h | h <;> simp [h]
  unfold parse_qingping_header
  simp only [hu']
  by_cases hd : header_has_data a0 = false
  · simp [hd]
  · by_cases h0 : a0 = 0x08
    · by_cases h1 : a1 = 0x01
      · simp [hd, h0, h1]
      · simp [hd, h0, h1]
    · simp [hd, h0]

theorem five_bytes (data : List Nat) (h5 : 5 ≤ data.length) :
    ∃ a0 a1 a2 a3 a4 rest, data = a0 :: a1 :: a2 :: a3 :: a4 :: rest := by
  match data, h5 with
  | a0 :: a1 :: a2 :: a3 :: a4 :: rest, _ => exact ⟨a0, a1, a2, a3, a4, rest, rfl⟩

/-- C7. For a service-data record of at least 5 bytes with a recognised UUID: when
byte 0 is `0x08` and byte 1 is `0x01`, `parse_qingping_header` returns a result
with `raw_offset = 8`, type `TYPE_CGG1`, name `"CGG1"`, `has_data` true,
`has_capability`, `has_encryption` and `is_duplicate` false (and no
measurement); for every other pair of leading bytes it returns no result.  So a
returned result never carries the default `raw_offset` 11 or 12. -/
theorem C7_header_signature (sd : ServiceData) (c b0 b1 b4 : Nat)
    (hu : sd.uuid.contains 0x95 0xFE = true ∨ sd.uuid.contains 0xCD 0xFD = true)
    (h5 : 5 ≤ sd.data.length)
    (h0 : sd.data[0]? = some b0) (h1 : sd.data[1]? = some b1) (h4 : sd.data[4]? = some b4) :
    (b0 = 0x08 ∧ b1 = 0x01 →
      parse_qingping_header sd c = some (some
        { type := .TYPE_CGG1, name := "CGG1",
          temperature := none, humidity := none, moisture := none, conductivity := none,
          illuminance := none, formaldehyde := none, battery_level := none, tablet := none,
          idle_time := none, is_active := none, has_motion := none, is_light := none,
          has_data := true, has_capability := false, has_encryption := false,
          is_duplicate := false, raw_offset := 8 }, b4)) ∧
    (¬ (b0 = 0x08 ∧ b1 = 0x01) → ∃ c', parse_qingping_header sd c = some (none, c')) ∧
    (∀ r c', parse_qingping_header sd c = some (some r, c') →
      r.raw_offset = 8 ∧ r.raw_offset ≠ 11 ∧ r.raw_offset ≠ 12) := by
  obtain ⟨uuid, data⟩ := sd
  obtain ⟨a0, a1, a2, a3, a4, rest, rfl⟩ := five_bytes data h5
  simp only [List.getElem?_cons_zero, List.getElem?_cons_succ, Option.some.injEq] at h0 h1 h4
  subst h0 h1 h4
  have hr := header_recognised uuid a0 a1 a2 a3 a4 rest c hu
  refine ⟨?_, ?_, ?_⟩
  · rintro ⟨e0, e1⟩
    subst e0 e1
    rw [hr]
    rfl
  · intro hne
    rw [hr]
    by_cases hd : header_has_data a0 = false
    · exact ⟨c, by rw [if_pos hd]⟩
    · exact ⟨a4, by rw [if_neg hd, if_neg hne]⟩
  · intro r c' hrc
    rw [hr] at hrc
    by_cases hd : header_has_data a0 = false
    · rw [if_pos hd] at hrc
      simp at hrc
    · rw [if_neg hd] at hrc
      by_cases hs : a0 = 0x08 ∧ a1 = 0x01
      · rw [if_pos hs] at hrc
        simp only [Option.some.injEq, Prod.mk.injEq] at hrc
        obtain ⟨e, _⟩ := hrc
        subst e
        simp
      · rw [if_neg hs] at hrc
        simp at hrc

/-- Instance of C7: the 5-byte record `08 01 02 03 04` under `sample_uuid`. -/
theorem C7_header_signature_witness :
    parse_qingping_header { uuid := sample_uuid, data := [0x08, 0x01, 0x02, 0x03, 0x04] } 0 =
      some (some
        { type := .TYPE_CGG1, name := "CGG1",
          temperature := none, humidity := none, moisture := none, conductivity := none,
          illuminance := none, formaldehyde := none, battery_level := none, tablet := none,
          idle_time := none, is_active := none, has_motion := none, is_light := none,
          has_data := true, has_capability := false, has_encryption := false,
          is_duplicate := false, raw_offset := 8 }, 4) :=
  (C7_header_signature { uuid := sample_uuid, data := [0x08, 0x01, 0x02, 0x03, 0x04] } 0 0x08 0x01
    0x04 (by decide) (by decide) rfl rfl rfl).1 ⟨rfl, rfl⟩

/-- C8. For a service-data record whose UUID contains neither `0x95, 0xFE` nor
`0xCD, 0xFD`, `parse_qingping_header` returns no result whatever the bytes are
and leaves `last_frame_count` as it was; the outcome is that of the empty
record, on which any read of a byte would be out of range. -/
theorem C8_foreign_uuid (uuid : ESPBTUUID) (data : List Nat) (c : Nat)
    (h1 : uuid.contains 0x95 0xFE = false) (h2 : uuid.contains 0xCD 0xFD = false) :
    parse_qingping_header { uuid := uuid, data := data } c = some (none, c) ∧
    parse_qingping_header { uuid := uuid, data := data } c =
      parse_qingping_header { uuid := uuid, data := [] } c := by
  rw [header_unrecognised uuid data c h1 h2, header_unrecognised uuid [] c h1 h2]
  exact ⟨rfl, rfl⟩

/-- Instance of C8: the accepted signature `08 01` under a foreign UUID. -/
theorem C8_foreign_uuid_witness :
    parse_qingping_header { uuid := foreign_uuid, data := [0x08, 0x01, 0x02, 0x03, 0x04] } 7 =
      some (none, 7) ∧
    parse_qingping_header { uuid := foreign_uuid, data := [0x08, 0x01, 0x02, 0x03, 0x04] } 7 =
      parse_qingping_header { uuid := foreign_uuid, data := [] } 7 :=
  C8_foreign_uuid foreign_uuid [0x08, 0x01, 0x02, 0x03, 0x04] 7 (by decide) (by decide)

/-- C9. For a service-data record of at least 5 bytes with a recognised UUID,
`has_data` is bit 6 of byte 0 or bit 3 of byte 0; this is the value in any
returned result, and when both bits are clear `parse_qingping_header` returns no
result (and leaves `last_frame_count` alone) whatever the other bits of byte 0
and the other bytes are. -/
theorem C9_has_data (sd : ServiceData) (c b0 : Nat)
    (hu : sd.uuid.contains 0x95 0xFE = true ∨ sd.uuid.contains 0xCD 0xFD = true)
    (h5 : 5 ≤ sd.data.length) (h0 : sd.data[0]? = some b0) :
    header_has_data b0 = (b0.testBit 6 || b0.testBit 3) ∧
    (b0.testBit 6 = false → b0.testBit 3 = false →
      parse_qingping_header sd c = some (none, c)) ∧
    (∀ r c', parse_qingping_header sd c = some (some r, c') →
      r.has_data = (b0.testBit 6 || b0.testBit 3)) := by
  obtain ⟨uuid, data⟩ := sd
  obtain ⟨a0, a1, a2, a3, a4, rest, rfl⟩ := five_bytes data h5
  simp only [List.getElem?_cons_zero, Option.some.injEq] at h0
  subst h0
  have hr := header_recognised uuid a0 a1 a2 a3 a4 rest c hu
  have he := header_has_data_eq a0
  refine ⟨he, ?_, ?_⟩
  · intro h6 h3
    have hd : header_has_data a0 = false := by rw [he, h6, h3]; rfl
    rw [hr, if_pos hd]
  · intro r c' hrc
    rw [hr] at hrc
    by_cases hd : header_has_data a0 = false
    · rw [if_pos hd] at hrc
      simp at hrc
    · rw [if_neg hd] at hrc
      by_cases hs : a0 = 0x08 ∧ a1 = 0x01
      · rw [if_pos hs] at hrc
        simp only [Option.some.injEq, Prod.mk.injEq] at hrc
        obtain ⟨e, _⟩ := hrc
        subst e
        exact he
      · rw [if_neg hs] at hrc
        simp at hrc

/-- Instance of C9: byte 0 `0x37` has bits 6 and 3 clear and every other low bit
set; the record is rejected. -/
theorem C9_has_data_witness :
    header_has_data 0x37 = (Nat.testBit 0x37 6 || Nat.testBit 0x37 3) ∧
    (Nat.testBit 0x37 6 = false → Nat.testBit 0x37 3 = false →
      parse_qingping_header { uuid := sample_uuid, data := [0x37, 0x01, 0x02, 0x03, 0x04] } 9 =
        some (none, 9)) ∧
    (∀ r c', parse_qingping_header { uuid := sample_uuid, data := [0x37, 0x01, 0x02, 0x03, 0x04] } 9
        = some (some r, c') →
      r.has_data = (Nat.testBit 0x37 6 || Nat.testBit 0x37 3)) :=
  C9_has_data { uuid := sample_uuid, data := [0x37, 0x01, 0x02, 0x03, 0x04] } 9 0x37
    (by decide) (by decide) rfl

/-! ## The data-point decoder: claim C10 -/

theorem readAt_some (message : List Nat) (i : Int) (h0 : 0 ≤ i) (h : i < message.length) :
    ∃ b, readAt message i = some b := by
  have hlt : i.toNat < message.length := by omega
  exact ⟨message[i.toNat], by rw [readAt, if_pos h0, List.getElem?_eq_getElem hlt]⟩

theorem readAt_nonneg (message : List Nat) (i : Int) (b : Nat) (h : readAt message i = some b) :
    0 ≤ i ∧ i < message.length := by
  unfold readAt at h
  by_cases h0 : 0 ≤ i
  · rw [if_pos h0] at h
    have := (List.getElem?_eq_some.mp h).1
    omega
  · rw [if_neg h0] at h
    exact absurd h (by simp)

theorem readAt_set_ne (message : List Nat) (i k : Int) (x : Nat) (h0 : 0 ≤ k) (hne : i ≠ k) :
    readAt (message.set k.toNat x) i = readAt message i := by
  unfold readAt
  by_cases hi : 0 ≤ i
  · rw [if_pos hi, if_pos hi, List.getElem?_set_ne (by omega)]
  · rw [if_neg hi, if_neg hi]

theorem parse_qingping_message_eq (message : List Nat) (result : QingpingParseResult)
    (m0 t len : Nat) (hm0 : message[0]? = some m0)
    (ht : readAt message result.raw_offset = some t)
    (hl : readAt message (result.raw_offset + 2) = some len) :
    parse_qingping_message message result =
    if len < 1 ∨ len > 4 then
      some (false, { result with has_encryption := (m0 &&& 0x08) != 0 })
    else if t = 0x04 ∧ len = 2 then
      (readAt message (result.raw_offset + 3)).bind fun d0 =>
      (readAt message (result.raw_offset + 3 + 1)).bind fun d1 =>
        some (true, { result with
          has_encryption := (m0 &&& 0x08) != 0,
          temperature := some (float_div (int16_le d0 d1) 10) })
    else if t = 0x06 ∧ len = 2 then
      (readAt message (result.raw_offset + 3)).bind fun d0 =>
      (readAt message (result.raw_offset + 3 + 1)).bind fun d1 =>
        some (true, { result with
          has_encryption := (m0 &&& 0x08) != 0,
          humidity := some (float_div (int16_le d0 d1) 10) })
    else if t = 0x0A ∧ len = 1 then
      (readAt message (result.raw_offset + 3)).bind fun d0 =>
        some (true, { result with
          has_encryption := (m0 &&& 0x08) != 0,
          battery_level := some (d0 : ℚ) })
    else if t = 0x0D ∧ len = 4 then
      (readAt message (result.raw_offset + 3)).bind fun d0 =>
      (readAt message (result.raw_offset + 3 + 1)).bind fun d1 =>
      (readAt message (result.raw_offset + 3 + 2)).bind fun d2 =>
      (readAt message (result.raw_offset + 3 + 3)).bind fun d3 =>
        some (true, { result with
          has_encryption := (m0 &&& 0x08) != 0,
          temperature := some (float_div (int16_le d0 d1) 10),
          humidity := some (float_div (int16_le d2 d3) 10) })
    else some (false, { result with has_encryption := (m0 &&& 0x08) != 0 }) := by
  unfold parse_qingping_message
  simp only [hm0, hl, ht, Option.bind_eq_bind, Option.some_bind]

/-- C10. For a record and a `raw_offset` such that the data point at `raw_offset`
(type code `t`, length byte `len`, `len` value bytes) lies inside the record,
`parse_qingping_message` runs to completion and returns `true` exactly when
`(t, len)` is one of `(0x04, 2)`, `(0x06, 2)`, `(0x0A, 1)`, `(0x0D, 4)`.  So a
data point of length 0 or of length 5 or more is rejected for every type code.
The byte at `raw_offset + 1` has no influence: with any other value there the
outcome is the same. -/
theorem C10_decoder_accepts (message : List Nat) (result : QingpingParseResult) (t len : Nat)
    (ht : readAt message result.raw_offset = some t)
    (hl : readAt message (result.raw_offset + 2) = some len)
    (hin : result.raw_offset + 3 + len ≤ message.length) :
    ∃ ok r, parse_qingping_message message result = some (ok, r) ∧
      (ok = true ↔ ((t = 0x04 ∧ len = 2) ∨ (t = 0x06 ∧ len = 2) ∨ (t = 0x0A ∧ len = 1) ∨
        (t = 0x0D ∧ len = 4))) ∧
      ((len = 0 ∨ 5 ≤ len) → ok = false) ∧
      ∀ x, parse_qingping_message (message.set (result.raw_offset + 1).toNat x) result =
        some (ok, r) := by
  obtain ⟨hoff, _⟩ := readAt_nonneg message _ t ht
  have hlen3 : (3 : Int) ≤ message.length := by omega
  have hpos : 0 < message.length := by omega
  have hm0 : message[0]? = some message[0] := List.getElem?_eq_getElem hpos
  -- the marker byte is not among the bytes read
  have hset : ∀ x, parse_qingping_message (message.set (result.raw_offset + 1).toNat x) result =
      parse_qingping_message message result := by
    intro x
    have h1 : (0 : Int) ≤ result.raw_offset + 1 := by omega
    have e0 : (message.set (result.raw_offset + 1).toNat x)[0]? = message[0]? :=
      List.getElem?_set_ne (by omega)
    have e (i : Int) (hi : i ≠ result.raw_offset + 1) :
        readAt (message.set (result.raw_offset + 1).toNat x) i = readAt message i :=
      readAt_set_ne message i _ x h1 hi
    unfold parse_qingping_message
    simp only [e0, e (result.raw_offset + 2) (by omega), e result.raw_offset (by omega),
      e (result.raw_offset + 3) (by omega), e (result.raw_offset + 3 + 1) (by omega),
      e (result.raw_offset + 3 + 2) (by omega), e (result.raw_offset + 3 + 3) (by omega)]
  have hun := parse_qingping_message_eq message result message[0] t len hm0 ht hl
  have main : ∃ ok r, parse_qingping_message message result = some (ok, r) ∧
      (ok = true ↔ ((t = 0x04 ∧ len = 2) ∨ (t = 0x06 ∧ len = 2) ∨ (t = 0x0A ∧ len = 1) ∨
        (t = 0x0D ∧ len = 4))) := by
    by_cases hbad : len < 1 ∨ len > 4
    · refine ⟨false, _, by rw [hun, if_pos hbad], ?_⟩
      exact iff_of_false (by simp) (by omega)
    · by_cases h1 : t = 0x04 ∧ len = 2
      · obtain ⟨d0, hd0⟩ := readAt_some message (result.raw_offset + 3) (by omega) (by omega)
        obtain ⟨d1, hd1⟩ := readAt_some message (result.raw_offset + 3 + 1) (by omega) (by omega)
        refine ⟨true, _, by rw [hun, if_neg hbad, if_pos h1, hd0, hd1]; rfl, ?_⟩
        exact iff_of_true rfl (Or.inl h1)
      · by_cases h2 : t = 0x06 ∧ len = 2
        · obtain ⟨d0, hd0⟩ := readAt_some message (result.raw_offset + 3) (by omega) (by omega)
          obtain ⟨d1, hd1⟩ := readAt_some message (result.raw_offset + 3 + 1) (by omega)
            (by omega)
          refine ⟨true, _, by rw [hun, if_neg hbad, if_neg h1, if_pos h2, hd0, hd1]; rfl, ?_⟩
          exact iff_of_true rfl (Or.inr (Or.inl h2))
        · by_cases h3 : t = 0x0A ∧ len = 1
          · obtain ⟨d0, hd0⟩ := readAt_some message (result.raw_offset + 3) (by omega) (by omega)
            refine ⟨true, _, by rw [hun, if_neg hbad, if_neg h1, if_neg h2, if_pos h3, hd0]; rfl,
              ?_⟩
            exact iff_of_true rfl (Or.inr (Or.inr (Or.inl h3)))
          · by_cases h4 : t = 0x0D ∧ len = 4
            · obtain ⟨d0, hd0⟩ := readAt_some message (result.raw_offset + 3) (by omega)
                (by omega)
              obtain ⟨d1, hd1⟩ := readAt_some message (result.raw_offset + 3 + 1) (by omega)
                (by omega)
              obtain ⟨d2, hd2⟩ := readAt_some message (result.raw_offset + 3 + 2) (by omega)
                (by omega)
              obtain ⟨d3, hd3⟩ := readAt_some message (result.raw_offset + 3 + 3) (by omega)
                (by omega)
              refine ⟨true, _, by
                rw [hun, if_neg hbad, if_neg h1, if_neg h2, if_neg h3, if_pos h4, hd0, hd1, hd2,
                  hd3]; rfl, ?_⟩
              exact iff_of_true rfl (Or.inr (Or.inr (Or.inr h4)))
            · refine ⟨false, _, by
                rw [hun, if_neg hbad, if_neg h1, if_neg h2, if_neg h3, if_neg h4], ?_⟩
              refine iff_of_false (by simp) ?_
              rintro (h | h | h | h)
              exacts [h1 h, h2 h, h3 h, h4 h]
  obtain ⟨ok, r, hp, hiff⟩ := main
  refine ⟨ok, r, hp, hiff, ?_, fun x => (hset x).trans hp⟩
  intro hlen
  cases hok : ok
  · rfl
  · have := hiff.mp hok
    omega

/-- Instance of C10: a temperature data point at offset 8 of a 13-byte record. -/
theorem C10_decoder_accepts_witness :
    ∃ ok r, parse_qingping_message
        [0x08, 0x01, 0x02, 0x03, 0x04, 0x05, 0x06, 0x07, 0x04, 0x10, 0x02, 0xF6, 0xFF]
        { QingpingParseResult.declared with raw_offset := 8 } = some (ok, r) ∧
      (ok = true ↔ (((0x04 : Nat) = 0x04 ∧ (2 : Nat) = 2) ∨ ((0x04 : Nat) = 0x06 ∧ (2 : Nat) = 2) ∨
        ((0x04 : Nat) = 0x0A ∧ (2 : Nat) = 1) ∨ ((0x04 : Nat) = 0x0D ∧ (2 : Nat) = 4))) ∧
      (((2 : Nat) = 0 ∨ 5 ≤ (2 : Nat)) → ok = false) ∧
      ∀ x, parse_qingping_message
        (([0x08, 0x01, 0x02, 0x03, 0x04, 0x05, 0x06, 0x07, 0x04, 0x10, 0x02, 0xF6, 0xFF] :
          List Nat).set
          (({ QingpingParseResult.declared with raw_offset := 8 } :
            QingpingParseResult).raw_offset + 1).toNat x)
        { QingpingParseResult.declared with raw_offset := 8 } = some (ok, r) :=
  C10_decoder_accepts
    [0x08, 0x01, 0x02, 0x03, 0x04, 0x05, 0x06, 0x07, 0x04, 0x10, 0x02, 0xF6, 0xFF]
    { QingpingParseResult.declared with raw_offset := 8 } 0x04 2 rfl rfl (by decide)

/-! ## The data-point decoder: claims C11 to C13, C17 and C19 -/

theorem int16_le_eq_signed16 (b0 b1 : Nat) (h0 : b0 < 256) (h1 : b1 < 256) :
    int16_le b0 b1 = signed16 b0 b1 := by
  have e0 : b0 % 65536 = b0 := Nat.mod_eq_of_lt (by omega)
  have e1 : b1 % 65536 = b1 := Nat.mod_eq_of_lt (by omega)
  have hor : b0 ||| b1 <<< 8 = b0 + 256 * b1 := by
    have h := Nat.mul_add_lt_is_or (i := 8) (b := b0) (by norm_num; exact h0) b1
    rw [Nat.shiftLeft_eq, Nat.or_comm, Nat.mul_comm b1, ← h]
    norm_num
    omega
  have hlt : b0 + 256 * b1 < 65536 := by omega
  unfold int16_le signed16
  simp only [e0, e1, hor, Nat.mod_eq_of_lt hlt]

theorem signed16_bounds (b0 b1 : Nat) (h0 : b0 < 256) (h1 : b1 < 256) :
    -32768 ≤ signed16 b0 b1 ∧ signed16 b0 b1 ≤ 32767 := by
  unfold signed16
  split <;> constructor <;> omega

theorem message_first (message : List Nat) (i : Int) (b : Nat) (h : readAt message i = some b) :
    message[0]? = some (message.headD 0) := by
  obtain ⟨h0, h1⟩ := readAt_nonneg message i b h
  cases message with
  | nil => simp at h1; omega
  | cons a l => simp

theorem decode_temperature (message : List Nat) (result : QingpingParseResult) (b0 b1 : Nat)
    (ht : readAt message result.raw_offset = some 0x04)
    (hl : readAt message (result.raw_offset + 2) = some 2)
    (h0 : readAt message (result.raw_offset + 3) = some b0)
    (h1 : readAt message (result.raw_offset + 4) = some b1) :
    parse_qingping_message message result = some (true, { result with
      has_encryption := (message.headD 0 &&& 0x08) != 0,
      temperature := some (float_div (int16_le b0 b1) 10) }) := by
  have e1 : result.raw_offset + 3 + 1 = result.raw_offset + 4 := by ring
  rw [parse_qingping_message_eq message result _ _ _ (message_first message _ _ ht) ht hl,
    e1, h0, h1]
  rfl

theorem decode_humidity (message : List Nat) (result : QingpingParseResult) (b0 b1 : Nat)
    (ht : readAt message result.raw_offset = some 0x06)
    (hl : readAt message (result.raw_offset + 2) = some 2)
    (h0 : readAt message (result.raw_offset + 3) = some b0)
    (h1 : readAt message (result.raw_offset + 4) = some b1) :
    parse_qingping_message message result = some (true, { result with
      has_encryption := (message.headD 0 &&& 0x08) != 0,
      humidity := some (float_div (int16_le b0 b1) 10) }) := by
  have e1 : result.raw_offset + 3 + 1 = result.raw_offset + 4 := by ring
  rw [parse_qingping_message_eq message result _ _ _ (message_first message _ _ ht) ht hl,
    e1, h0, h1]
  rfl

theorem decode_battery (message : List Nat) (result : QingpingParseResult) (b0 : Nat)
    (ht : readAt message result.raw_offset = some 0x0A)
    (hl : readAt message (result.raw_offset + 2) = some 1)
    (h0 : readAt message (result.raw_offset + 3) = some b0) :
    parse_qingping_message message result = some (true, { result with
      has_encryption := (message.headD 0 &&& 0x08) != 0,
      battery_level := some (b0 : ℚ) }) := by
  rw [parse_qingping_message_eq message result _ _ _ (message_first message _ _ ht) ht hl, h0]
  rfl

theorem decode_climate (message : List Nat) (result : QingpingParseResult) (b0 b1 b2 b3 : Nat)
    (ht : readAt message result.raw_offset = some 0x0D)
    (hl : readAt message (result.raw_offset + 2) = some 4)
    (h0 : readAt message (result.raw_offset + 3) = some b0)
    (h1 : readAt message (result.raw_offset + 4) = some b1)
    (h2 : readAt message (result.raw_offset + 5) = some b2)
    (h3 : readAt message (result.raw_offset + 6) = some b3) :
    parse_qingping_message message result = some (true, { result with
      has_encryption := (message.headD 0 &&& 0x08) != 0,
      temperature := some (float_div (int16_le b0 b1) 10),
      humidity := some (float_div (int16_le b2 b3) 10) }) := by
  have e1 : result.raw_offset + 3 + 1 = result.raw_offset + 4 := by ring
  have e2 : result.raw_offset + 3 + 2 = result.raw_offset + 5 := by ring
  have e3 : result.raw_offset + 3 + 3 = result.raw_offset + 6 := by ring
  rw [parse_qingping_message_eq message result _ _ _ (message_first message _ _ ht) ht hl,
    e1, e2, e3, h0, h1, h2, h3]
  rfl

/-! ### Division in binary32 -/

theorem floor_log2_spec : ∀ (fuel n : Nat), 0 < n → n ≤ fuel →
    2 ^ floor_log2 fuel n ≤ n ∧ n < 2 ^ (floor_log2 fuel n + 1) := by
  intro fuel
  induction fuel with
  | zero => intro n h0 h1; omega
  | succ fuel ih =>
    intro n h0 h1
    unfold floor_log2
    by_cases h2 : n < 2
    · rw [if_pos h2]
      constructor
      · simpa using h0
      · simpa using h2
    · rw [if_neg h2]
      obtain ⟨ha, hb⟩ := ih (n / 2) (by omega) (by omega)
      rw [pow_succ] at hb
      constructor
      · rw [pow_succ]; omega
      · rw [pow_succ, pow_succ]; omega

theorem round_half_even_error (num den : Nat) (hden : 0 < den) :
    |((round_half_even num den : Nat) : ℚ) * den - num| ≤ (den : ℚ) / 2 := by
  have hnum : (num : ℚ) = (den : ℚ) * ((num / den : Nat) : ℚ) + ((num % den : Nat) : ℚ) := by
    exact_mod_cast (Nat.div_add_mod num den).symm
  have hr : ((num % den : Nat) : ℚ) < den := by
    exact_mod_cast Nat.mod_lt num hden
  have hr0 : (0 : ℚ) ≤ ((num % den : Nat) : ℚ) := Nat.cast_nonneg _
  unfold round_half_even
  simp only
  by_cases h1 : 2 * (num % den) < den
  · have h1q : (2 : ℚ) * ((num % den : Nat) : ℚ) < den := by exact_mod_cast h1
    rw [if_pos h1, abs_le]
    constructor <;> linarith
  · rw [if_neg h1]
    have h1q : (den : ℚ) ≤ (2 : ℚ) * ((num % den : Nat) : ℚ) := by
      exact_mod_cast Nat.le_of_not_lt h1
    by_cases h2 : den < 2 * (num % den)
    · rw [if_pos h2, abs_le]
      push_cast
      constructor <;> linarith
    · rw [if_neg h2]
      have h2q : (2 : ℚ) * ((num % den : Nat) : ℚ) ≤ den := by
        exact_mod_cast Nat.le_of_not_lt h2
      by_cases h3 : num / den % 2 = 0
      · rw [if_pos h3, abs_le]
        constructor <;> linarith
      · rw [if_neg h3, abs_le]
        push_cast
        constructor <;> linarith

theorem binary32_exponent_le (n d : Nat) (hn : 0 < n) (hd : 0 < d) :
    (2 : ℚ) ^ binary32_exponent n d ≤ (n : ℚ) / d := by
  obtain ⟨hn1, hn2⟩ := floor_log2_spec n n hn (le_refl n)
  obtain ⟨hd1, hd2⟩ := floor_log2_spec d d hd (le_refl d)
  have hdq : (0 : ℚ) < d := by exact_mod_cast hd
  have h2 : (0 : ℚ) < 2 := by norm_num
  rw [le_div_iff₀ hdq]
  unfold binary32_exponent
  simp only
  by_cases hc : d * 2 ^ floor_log2 n n ≤ n * 2 ^ floor_log2 d d
  · rw [if_pos hc, zpow_sub₀ (by norm_num), zpow_natCast, zpow_natCast, div_mul_eq_mul_div,
      div_le_iff₀ (by positivity)]
    have : ((d * 2 ^ floor_log2 n n : Nat) : ℚ) ≤ ((n * 2 ^ floor_log2 d d : Nat) : ℚ) := by
      exact_mod_cast hc
    push_cast at this
    linarith
  · rw [if_neg hc, sub_sub, zpow_sub₀ (by norm_num), zpow_natCast]
    have e : ((floor_log2 d d : Int) + 1) = ((floor_log2 d d + 1 : Nat) : Int) := by push_cast; rfl
    rw [e, zpow_natCast, div_mul_eq_mul_div, div_le_iff₀ (by positivity)]
    have a1 : ((2 ^ floor_log2 n n : Nat) : ℚ) ≤ (n : ℚ) := by exact_mod_cast hn1
    have a2 : ((d : Nat) : ℚ) ≤ ((2 ^ (floor_log2 d d + 1) : Nat) : ℚ) := by
      exact_mod_cast Nat.le_of_lt hd2
    push_cast at a1 a2
    calc (2 : ℚ) ^ floor_log2 n n * d ≤ (n : ℚ) * d := by
          exact mul_le_mul_of_nonneg_right a1 (le_of_lt hdq)
      _ ≤ (n : ℚ) * 2 ^ (floor_log2 d d + 1) := by
          exact mul_le_mul_of_nonneg_left a2 (by positivity)

theorem binary32_magnitude_error (n d : Nat) (hn : 0 < n) (hd : 0 < d) :
    |(binary32_significand n d : ℚ) * (2 : ℚ) ^ (binary32_exponent n d - 23) - (n : ℚ) / d| ≤
      (n : ℚ) / d / 2 ^ 24 := by
  have hdq : (0 : ℚ) < d := by exact_mod_cast hd
  have hexp := binary32_exponent_le n d hn hd
  generalize hp : binary32_exponent n d - 23 = p at *
  have hk : binary32_significand n d =
      round_half_even (n * 2 ^ (-p).toNat) (d * 2 ^ p.toNat) := by
    unfold binary32_significand
    simp only [hp]
  have hA : (0 : ℚ) < (2 : ℚ) ^ (-p).toNat := by positivity
  have hB : (0 : ℚ) < (2 : ℚ) ^ p.toNat := by positivity
  have hden : 0 < d * 2 ^ p.toNat := Nat.mul_pos hd (by positivity)
  have herr := round_half_even_error (n * 2 ^ (-p).toNat) (d * 2 ^ p.toNat) hden
  rw [← hk] at herr
  push_cast at herr
  -- 2 ^ p as a quotient of natural powers
  have hpz : (2 : ℚ) ^ p = (2 : ℚ) ^ p.toNat / (2 : ℚ) ^ (-p).toNat := by
    have e : p = (p.toNat : Int) - ((-p).toNat : Int) := (Int.toNat_sub_toNat_neg p).symm
    conv_lhs => rw [e]
    rw [zpow_sub₀ (by norm_num), zpow_natCast, zpow_natCast]
  have hulp : (2 : ℚ) ^ p / 2 ≤ (n : ℚ) / d / 2 ^ 24 := by
    have e : (2 : ℚ) ^ p = (2 : ℚ) ^ binary32_exponent n d / 2 ^ 23 := by
      rw [← hp, zpow_sub₀ (by norm_num)]
      norm_num
    rw [e, div_div]
    have : (2 : ℚ) ^ 23 * 2 = 2 ^ 24 := by norm_num
    rw [this]
    exact div_le_div_of_nonneg_right hexp (by positivity)
  refine le_trans ?_ hulp
  have hq : (binary32_significand n d : ℚ) * (2 : ℚ) ^ p - (n : ℚ) / d =
      ((binary32_significand n d : ℚ) * ((d : ℚ) * 2 ^ p.toNat) - (n : ℚ) * 2 ^ (-p).toNat) /
        ((d : ℚ) * 2 ^ (-p).toNat) := by
    rw [hpz]
    field_simp
    ring
  rw [hq, abs_div, abs_of_pos (mul_pos hdq hA), div_le_iff₀ (mul_pos hdq hA), hpz]
  have : (2 : ℚ) ^ p.toNat / (2 : ℚ) ^ (-p).toNat / 2 * ((d : ℚ) * 2 ^ (-p).toNat) =
      (d : ℚ) * 2 ^ p.toNat / 2 := by
    field_simp
    ring
  rw [this]
  exact herr

theorem float_div_error (x : Int) (y : Nat) (hx : x ≠ 0) (hy : 0 < y) :
    |float_div x y - (x : ℚ) / y| ≤ |(x : ℚ) / y| / 2 ^ 24 := by
  have hn : 0 < x.natAbs := Int.natAbs_pos.mpr hx
  have hyq : (0 : ℚ) < y := by exact_mod_cast hy
  have hm := binary32_magnitude_error x.natAbs y hn hy
  have hnq : (0 : ℚ) < (x.natAbs : ℚ) := by exact_mod_cast hn
  unfold float_div
  rw [if_neg hx]
  simp only
  by_cases hneg : x < 0
  · rw [if_pos hneg]
    have hxq : (x : ℚ) = -(x.natAbs : ℚ) := by
      have hxneg : (x : ℚ) < 0 := by exact_mod_cast hneg
      rw [Nat.cast_natAbs, Int.cast_abs, abs_of_neg hxneg]
      ring
    rw [hxq, neg_div, abs_neg, abs_of_pos (div_pos hnq hyq), ← neg_sub', abs_neg]
    exact hm
  · rw [if_neg hneg]
    have hxq : (x : ℚ) = (x.natAbs : ℚ) := by
      have hxpos : (0 : ℚ) ≤ (x : ℚ) := by exact_mod_cast Int.not_lt.mp hneg
      rw [Nat.cast_natAbs, Int.cast_abs, abs_of_nonneg hxpos]
    rw [hxq, abs_of_pos (div_pos hnq hyq)]
    exact hm

theorem round_half_even_of_dvd (num den : Nat) (hden : 0 < den) (h : den ∣ num) :
    round_half_even num den = num / den := by
  have hr : num % den = 0 := Nat.mod_eq_zero_of_dvd h
  unfold round_half_even
  simp only [hr]
  rw [if_pos (by omega)]

theorem floor_log2_10 : floor_log2 10 10 = 3 := by decide

theorem binary32_exponent_10_le (n : Nat) (hn : 0 < n) (hlt : n < 2 ^ 24) :
    binary32_exponent n 10 ≤ 20 := by
  obtain ⟨h1, _⟩ := floor_log2_spec n n hn (le_refl n)
  have hl : floor_log2 n n < 24 := by
    by_contra hc
    have : 2 ^ 24 ≤ 2 ^ floor_log2 n n := Nat.pow_le_pow_right (by norm_num) (by omega)
    omega
  unfold binary32_exponent
  simp only [floor_log2_10]
  split <;> omega

theorem binary32_magnitude_exact_iff (n : Nat) (hn : 0 < n) (hlt : n < 2 ^ 24) :
    (binary32_significand n 10 : ℚ) * (2 : ℚ) ^ (binary32_exponent n 10 - 23) = (n : ℚ) / 10 ↔
      5 ∣ n := by
  have he := binary32_exponent_10_le n hn hlt
  generalize hp : binary32_exponent n 10 - 23 = p at *
  have hple : p ≤ -3 := by omega
  have hk : binary32_significand n 10 = round_half_even (n * 2 ^ (-p).toNat) (10 * 2 ^ p.toNat) := by
    unfold binary32_significand
    simp only [hp]
  obtain ⟨a, ha⟩ : ∃ a : Nat, (-p).toNat = a + 1 := ⟨(-p).toNat - 1, by omega⟩
  have hb : p.toNat = 0 := by omega
  have hpa : p = -((a + 1 : Nat) : Int) := by omega
  rw [ha, hb, pow_zero, Nat.mul_one] at hk
  have hpz : (2 : ℚ) ^ p = 1 / (2 : ℚ) ^ (a + 1) := by
    rw [hpa, zpow_neg, zpow_natCast, one_div]
  have h2a : (0 : ℚ) < (2 : ℚ) ^ (a + 1) := by positivity
  rw [hpz, hk]
  constructor
  · intro h
    have h1 : ((round_half_even (n * 2 ^ (a + 1)) 10 : Nat) : ℚ) * 10 = (n : ℚ) * 2 ^ (a + 1) := by
      field_simp at h
      linarith
    have h2 : round_half_even (n * 2 ^ (a + 1)) 10 * 10 = n * 2 ^ (a + 1) := by
      exact_mod_cast h1
    have h3 : 5 ∣ n * 2 ^ (a + 1) := ⟨round_half_even (n * 2 ^ (a + 1)) 10 * 2, by omega⟩
    exact (Nat.Coprime.dvd_mul_right (Nat.Coprime.pow_right (a + 1) (by norm_num))).mp h3
  · rintro ⟨m, rfl⟩
    have hd : 10 ∣ 5 * m * 2 ^ (a + 1) := ⟨m * 2 ^ a, by rw [pow_succ]; ring⟩
    have hq : 5 * m * 2 ^ (a + 1) / 10 = m * 2 ^ a := by
      have : 5 * m * 2 ^ (a + 1) = 10 * (m * 2 ^ a) := by rw [pow_succ]; ring
      rw [this, Nat.mul_div_cancel_left _ (by norm_num : 0 < 10)]
    rw [round_half_even_of_dvd _ _ (by norm_num) hd, hq]
    push_cast
    rw [pow_succ]
    field_simp
    ring

theorem float_div_10_exact_iff (x : Int) (hlt : x.natAbs < 2 ^ 24) :
    float_div x 10 = (x : ℚ) / 10 ↔ 5 ∣ x := by
  by_cases hx : x = 0
  · subst hx
    simp [float_div]
  · have hn : 0 < x.natAbs := Int.natAbs_pos.mpr hx
    have hm := binary32_magnitude_exact_iff x.natAbs hn hlt
    have hdvd : 5 ∣ x ↔ 5 ∣ x.natAbs := by
      rw [← Int.natCast_dvd_natCast, Int.dvd_natAbs]
      rfl
    rw [hdvd, ← hm]
    unfold float_div
    rw [if_neg hx]
    simp only
    by_cases hneg : x < 0
    · rw [if_pos hneg]
      have hxq : (x : ℚ) = -(x.natAbs : ℚ) := by
        have hxneg : (x : ℚ) < 0 := by exact_mod_cast hneg
        rw [Nat.cast_natAbs, Int.cast_abs, abs_of_neg hxneg]
        ring
      rw [hxq, neg_div, neg_inj]
    · rw [if_neg hneg]
      have hxq : (x : ℚ) = (x.natAbs : ℚ) := by
        have hxpos : (0 : ℚ) ≤ (x : ℚ) := by exact_mod_cast Int.not_lt.mp hneg
        rw [Nat.cast_natAbs, Int.cast_abs, abs_of_nonneg hxpos]
      rw [hxq]

theorem float_div_10_spec (s : Int) (h1 : -32768 ≤ s) (h2 : s ≤ 32767) :
    |float_div s 10 - (s : ℚ) / 10| ≤ |(s : ℚ) / 10| / 2 ^ 24 ∧
    (float_div s 10 = (s : ℚ) / 10 ↔ 5 ∣ s) := by
  refine ⟨?_, float_div_10_exact_iff s (by norm_num; omega)⟩
  by_cases hs : s = 0
  · subst hs
    simp [float_div]
  · exact float_div_error s 10 hs (by norm_num)

/-- C11, as stated, fails on the temperature data point with value bytes `FF 7F`:
`s = 32767`, and the decoder stores the binary32 quotient `13421363/4096`, which
is not `32767/10`, and ten times it is not an integer. -/
theorem C11_counterexample :
    signed16 0xFF 0x7F = 32767 ∧
    ∃ r, parse_qingping_message warm_record header_result = some (true, r) ∧
      r.temperature = some (13421363 / 4096) ∧
      ¬ (r.temperature = some ((signed16 0xFF 0x7F : ℚ) / 10)) ∧
      ¬ ∃ z : Int, 10 * (13421363 / 4096 : ℚ) = (z : ℚ) := by
  have hs : signed16 0xFF 0x7F = 32767 := by decide
  have hi : int16_le 0xFF 0x7F = 32767 := by decide
  have hf : float_div 32767 10 = 13421363 / 4096 := by
    have h1 : binary32_exponent 32767 10 = 11 := by decide
    have h2 : binary32_significand 32767 10 = 13421363 := by decide
    have e : float_div 32767 10 = ((binary32_significand 32767 10 : ℚ) *
        (2 : ℚ) ^ (binary32_exponent 32767 10 - 23)) := rfl
    rw [e, h1, h2]
    norm_num
  refine ⟨hs, _, decode_temperature warm_record header_result 0xFF 0x7F rfl rfl rfl rfl, ?_, ?_,
    ?_⟩
  · show some (float_div (int16_le 0xFF 0x7F) 10) = some (13421363 / 4096)
    rw [hi, hf]
  · show ¬ (some (float_div (int16_le 0xFF 0x7F) 10) = some ((signed16 0xFF 0x7F : ℚ) / 10))
    rw [hi, hf, hs]
    norm_num
  · rintro ⟨z, hz⟩
    have h : (67106815 : ℚ) = 2048 * (z : ℚ) := by linarith
    have h' : (67106815 : Int) = 2048 * z := by exact_mod_cast h
    omega

/-- C11, amended. For value bytes `b0, b1` (each below 256) let `s` be the
two's-complement signed 16-bit reading of `b0 + 256 * b1`; it lies in
`[-32768, 32767]`.  `parse_qingping_message` sets `temperature` for a data point
of type `0x04`, length 2, and `humidity` for one of type `0x06`, length 2, to
the binary32 quotient of `s` by `10.0f`, leaving the other measurements as they
were.  That quotient is the float nearest to `s / 10`: it differs from `s / 10`
by at most `|s / 10| / 2^24`, and it is exactly `s / 10` if and only if `s` is a
multiple of 5.  A data point of type `0x0D`, length 4, sets `temperature` from
`(b0, b1)` and `humidity` from `(b2, b3)` in the same way. -/
theorem C11_signed_tenths (message : List Nat) (result : QingpingParseResult)
    (t len b0 b1 : Nat)
    (ht : readAt message result.raw_offset = some t)
    (hl : readAt message (result.raw_offset + 2) = some len)
    (h0 : readAt message (result.raw_offset + 3) = some b0)
    (h1 : readAt message (result.raw_offset + 4) = some b1)
    (hb0 : b0 < 256) (hb1 : b1 < 256) :
    (-32768 ≤ signed16 b0 b1 ∧ signed16 b0 b1 ≤ 32767) ∧
    |float_div (signed16 b0 b1) 10 - (signed16 b0 b1 : ℚ) / 10| ≤
      |(signed16 b0 b1 : ℚ) / 10| / 2 ^ 24 ∧
    (float_div (signed16 b0 b1) 10 = (signed16 b0 b1 : ℚ) / 10 ↔ 5 ∣ signed16 b0 b1) ∧
    (t = 0x04 ∧ len = 2 → ∃ r, parse_qingping_message message result = some (true, r) ∧
      r.temperature = some (float_div (signed16 b0 b1) 10) ∧
      r.humidity = result.humidity ∧ r.battery_level = result.battery_level) ∧
    (t = 0x06 ∧ len = 2 → ∃ r, parse_qingping_message message result = some (true, r) ∧
      r.humidity = some (float_div (signed16 b0 b1) 10) ∧
      r.temperature = result.temperature ∧ r.battery_level = result.battery_level) ∧
    (t = 0x0D ∧ len = 4 → ∀ b2 b3,
      readAt message (result.raw_offset + 5) = some b2 →
      readAt message (result.raw_offset + 6) = some b3 → b2 < 256 → b3 < 256 →
      ∃ r, parse_qingping_message message result = some (true, r) ∧
        r.temperature = some (float_div (signed16 b0 b1) 10) ∧
        r.humidity = some (float_div (signed16 b2 b3) 10) ∧
        r.battery_level = result.battery_level ∧
        |float_div (signed16 b2 b3) 10 - (signed16 b2 b3 : ℚ) / 10| ≤
          |(signed16 b2 b3 : ℚ) / 10| / 2 ^ 24 ∧
        (float_div (signed16 b2 b3) 10 = (signed16 b2 b3 : ℚ) / 10 ↔ 5 ∣ signed16 b2 b3)) := by
  have hs := signed16_bounds b0 b1 hb0 hb1
  have e01 := int16_le_eq_signed16 b0 b1 hb0 hb1
  obtain ⟨q1, q2⟩ := float_div_10_spec (signed16 b0 b1) hs.1 hs.2
  refine ⟨hs, q1, q2, ?_, ?_, ?_⟩
  · rintro ⟨rfl, rfl⟩
    exact ⟨_, decode_temperature message result b0 b1 ht hl h0 h1, by rw [e01], rfl, rfl⟩
  · rintro ⟨rfl, rfl⟩
    exact ⟨_, decode_humidity message result b0 b1 ht hl h0 h1, by rw [e01], rfl, rfl⟩
  · rintro ⟨rfl, rfl⟩ b2 b3 h2 h3 hb2 hb3
    have e23 := int16_le_eq_signed16 b2 b3 hb2 hb3
    have hs2 := signed16_bounds b2 b3 hb2 hb3
    obtain ⟨q3, q4⟩ := float_div_10_spec (signed16 b2 b3) hs2.1 hs2.2
    exact ⟨_, decode_climate message result b0 b1 b2 b3 ht hl h0 h1 h2 h3, by rw [e01],
      by rw [e23], rfl, q3, q4⟩

theorem signed16_F6_FF : signed16 0xF6 0xFF = -10 := by decide

theorem float_div_neg10 : float_div (-10) 10 = -1 := by
  have h1 : binary32_exponent 10 10 = 0 := by decide
  have h2 : binary32_significand 10 10 = 8388608 := by decide
  have e : float_div (-10) 10 = -((binary32_significand 10 10 : ℚ) *
      (2 : ℚ) ^ (binary32_exponent 10 10 - 23)) := rfl
  rw [e, h1, h2]
  norm_num

/-- Instance of C11 (amended): the temperature data point `F6 FF` has `s = -10`,
a multiple of 5, and gives the temperature `-1`. -/
theorem C11_signed_tenths_witness :
    signed16 0xF6 0xFF = -10 ∧
    ∃ r, parse_qingping_message temperature_record header_result = some (true, r) ∧
      r.temperature = some (-1) := by
  obtain ⟨r, hr, ht, _⟩ :=
    (C11_signed_tenths temperature_record header_result 0x04 2 0xF6 0xFF rfl rfl rfl rfl
      (by decide) (by decide)).2.2.2.1 ⟨rfl, rfl⟩
  refine ⟨signed16_F6_FF, r, hr, ?_⟩
  rw [ht, signed16_F6_FF, float_div_neg10]

theorem int16_le_96_01 : int16_le 0x96 0x01 = 406 := by decide

theorem int16_le_0A_00 : int16_le 0x0A 0x00 = 10 := by decide

theorem float_div_10 : float_div 10 10 = 1 := by
  have h1 : binary32_exponent 10 10 = 0 := by decide
  have h2 : binary32_significand 10 10 = 8388608 := by decide
  have e : float_div 10 10 = ((binary32_significand 10 10 : ℚ) *
      (2 : ℚ) ^ (binary32_exponent 10 10 - 23)) := rfl
  rw [e, h1, h2]
  norm_num

theorem float_div_406 : float_div 406 10 = 5321523 / 131072 := by
  have h1 : binary32_exponent 406 10 = 5 := by decide
  have h2 : binary32_significand 406 10 = 10643046 := by decide
  have e : float_div 406 10 = ((binary32_significand 406 10 : ℚ) *
      (2 : ℚ) ^ (binary32_exponent 406 10 - 23)) := rfl
  rw [e, h1, h2]
  norm_num

theorem decode_climate_sample (message : List Nat) (result : QingpingParseResult)
    (ht : readAt message result.raw_offset = some 0x0D)
    (hl : readAt message (result.raw_offset + 2) = some 4)
    (h0 : readAt message (result.raw_offset + 3) = some 0x0A)
    (h1 : readAt message (result.raw_offset + 4) = some 0x00)
    (h2 : readAt message (result.raw_offset + 5) = some 0x96)
    (h3 : readAt message (result.raw_offset + 6) = some 0x01) :
    ∃ r, parse_qingping_message message result = some (true, r) ∧
      r.temperature = some 1 ∧ r.humidity = some (5321523 / 131072) := by
  refine ⟨_, decode_climate message result _ _ _ _ ht hl h0 h1 h2 h3, ?_, ?_⟩
  · show some (float_div (int16_le 0x0A 0x00) 10) = some 1
    rw [int16_le_0A_00, float_div_10]
  · show some (float_div (int16_le 0x96 0x01) 10) = some (5321523 / 131072)
    rw [int16_le_96_01, float_div_406]

/-- C12, as stated, fails: on the data point of type `0x0D`, length 4, value bytes
`0A 00 96 01`, the decoder succeeds with temperature 1 and humidity
`5321523/131072` (the binary32 value nearest 40.6, from `0x0196 = 406`), which
is not 41. -/
theorem C12_counterexample :
    ¬ ∃ r, parse_qingping_message climate_record header_result = some (true, r) ∧
      r.temperature = some 1 ∧ r.humidity = some 41 := by
  rintro ⟨r, hr, _, hh⟩
  obtain ⟨r', hr', _, hh'⟩ := decode_climate_sample climate_record header_result rfl rfl rfl rfl
    rfl rfl
  rw [hr] at hr'
  simp only [Option.some.injEq, Prod.mk.injEq, true_and] at hr'
  subst hr'
  rw [hh] at hh'
  norm_num at hh'

/-- C12, amended. Decoding a data point of type `0x0D` with length 4 and value
bytes `0A 00 96 01` succeeds and yields temperature 1.0 and, as humidity, the
binary32 value nearest 40.6: `5321523/131072`, which is `1/655360` below 40.6. -/
theorem C12_climate_sample (message : List Nat) (result : QingpingParseResult)
    (ht : readAt message result.raw_offset = some 0x0D)
    (hl : readAt message (result.raw_offset + 2) = some 4)
    (h0 : readAt message (result.raw_offset + 3) = some 0x0A)
    (h1 : readAt message (result.raw_offset + 4) = some 0x00)
    (h2 : readAt message (result.raw_offset + 5) = some 0x96)
    (h3 : readAt message (result.raw_offset + 6) = some 0x01) :
    ∃ r, parse_qingping_message message result = some (true, r) ∧
      r.temperature = some 1 ∧ r.humidity = some (5321523 / 131072) ∧
      (40.6 : ℚ) - 5321523 / 131072 = 1 / 655360 := by
  obtain ⟨r, hr, h1, h2⟩ := decode_climate_sample message result ht hl h0 h1 h2 h3
  exact ⟨r, hr, h1, h2, by norm_num⟩

/-- Instance of C12 (amended) on `climate_record`. -/
theorem C12_climate_sample_witness :
    ∃ r, parse_qingping_message climate_record header_result = some (true, r) ∧
      r.temperature = some 1 ∧ r.humidity = some (5321523 / 131072) ∧
      (40.6 : ℚ) - 5321523 / 131072 = 1 / 655360 :=
  C12_climate_sample climate_record header_result rfl rfl rfl rfl rfl rfl

/-- C13. For every value byte `b`, decoding a data point of type `0x0A` with
length 1 succeeds and sets `battery_level` to the unsigned value of `b`,
unscaled; `temperature` and `humidity` stay as they were. -/
theorem C13_battery (message : List Nat) (result : QingpingParseResult) (b : Nat)
    (ht : readAt message result.raw_offset = some 0x0A)
    (hl : readAt message (result.raw_offset + 2) = some 1)
    (h0 : readAt message (result.raw_offset + 3) = some b) :
    ∃ r, parse_qingping_message message result = some (true, r) ∧
      r.battery_level = some (b : ℚ) ∧
      r.temperature = result.temperature ∧ r.humidity = result.humidity :=
  ⟨_, decode_battery message result b ht hl h0, rfl, rfl, rfl⟩

/-- Instance of C13: the value byte `0x64` gives battery 100. -/
theorem C13_battery_witness :
    ∃ r, parse_qingping_message battery_record header_result = some (true, r) ∧
      r.battery_level = some ((0x64 : Nat) : ℚ) ∧
      r.temperature = header_result.temperature ∧ r.humidity = header_result.humidity ∧
      (((0x64 : Nat) : ℚ) = 100) :=
  let ⟨r, h1, h2, h3, h4⟩ := C13_battery battery_record header_result 0x64 rfl rfl rfl
  ⟨r, h1, h2, h3, h4, by norm_num⟩

/-- C19, as stated, fails: the battery data point with value byte `0xFF` is
decoded with success and gives `battery_level = 255`, which is above 100. -/
theorem C19_counterexample :
    ¬ ∀ r, parse_qingping_message battery_record_255 header_result = some (true, r) →
      ∃ v, r.battery_level = some v ∧ 0 ≤ v ∧ v ≤ 100 := by
  intro h
  obtain ⟨v, hv, _, hle⟩ := h _ (decode_battery battery_record_255 header_result 0xFF rfl rfl rfl)
  simp only [Option.some.injEq] at hv
  rw [← hv] at hle
  norm_num at hle

/-- C19, amended. Every battery value the decoder produces is the unsigned value
of one byte: for a record of bytes (each below 256), decoding a data point of
type `0x0A` with length 1 succeeds and sets `battery_level` to a value between 0
and 255. -/
theorem C19_battery_range (message : List Nat) (result : QingpingParseResult) (b : Nat)
    (hbytes : ∀ x ∈ message, x < 256)
    (ht : readAt message result.raw_offset = some 0x0A)
    (hl : readAt message (result.raw_offset + 2) = some 1)
    (h0 : readAt message (result.raw_offset + 3) = some b) :
    ∃ r v, parse_qingping_message message result = some (true, r) ∧
      r.battery_level = some v ∧ 0 ≤ v ∧ v ≤ 255 := by
  have hb : b < 256 := by
    unfold readAt at h0
    split at h0
    · exact hbytes b (List.getElem?_mem h0)
    · exact absurd h0 (by simp)
  refine ⟨_, (b : ℚ), decode_battery message result b ht hl h0, rfl, by positivity, ?_⟩
  have : b ≤ 255 := by omega
  exact_mod_cast this

/-- Instance of C19 (amended) on `battery_record_255`. -/
theorem C19_battery_range_witness :
    ∃ r v, parse_qingping_message battery_record_255 header_result = some (true, r) ∧
      r.battery_level = some v ∧ 0 ≤ v ∧ v ≤ 255 :=
  C19_battery_range battery_record_255 header_result 0xFF (by decide) rfl rfl rfl

/-! ## The decoder and the classifier: claims C16 and C17 -/

theorem decoder_has_encryption (message : List Nat) (result : QingpingParseResult) (ok : Bool)
    (r : QingpingParseResult) (h : parse_qingping_message message result = some (ok, r)) :
    ∃ m0, message[0]? = some m0 ∧ r.has_encryption = ((m0 &&& 0x08) != 0) := by
  cases hm0 : message[0]? with
  | none => simp [parse_qingping_message, hm0] at h
  | some m0 =>
    refine ⟨m0, rfl, ?_⟩
    cases hl : readAt message (result.raw_offset + 2) with
    | none => simp [parse_qingping_message, hm0, hl] at h
    | some len =>
      by_cases hbad : len < 1 ∨ len > 4
      · have : parse_qingping_message message result =
            some (false, { result with has_encryption := (m0 &&& 0x08) != 0 }) := by
          unfold parse_qingping_message
          simp only [hm0, hl, Option.bind_eq_bind, Option.some_bind]
          rw [if_pos hbad]
        rw [this] at h
        simp only [Option.some.injEq, Prod.mk.injEq] at h
        rw [← h.2]
      · cases ht : readAt message result.raw_offset with
        | none =>
          have : parse_qingping_message message result = none := by
            unfold parse_qingping_message
            simp only [hm0, hl, ht, Option.bind_eq_bind, Option.some_bind, Option.none_bind]
            rw [if_neg hbad]
          rw [this] at h
          exact absurd h (by simp)
        | some t =>
          rw [parse_qingping_message_eq message result m0 t len hm0 ht hl, if_neg hbad] at h
          split_ifs at h
          all_goals
            simp only [Option.bind_eq_some, Option.some.injEq, Prod.mk.injEq] at h
          all_goals
            obtain ⟨_, _, _, _, _, _, _, _, _, rfl⟩ := h
            rfl

theorem header_general (sd : ServiceData) (c : Nat) :
    parse_qingping_header sd c =
      if (!sd.uuid.contains 0x95 0xFE && !sd.uuid.contains 0xCD 0xFD) = true then some (none, c)
      else
        match sd.data[0]? with
        | none => none
        | some a0 =>
          if header_has_data a0 = false then some (none, c)
          else
            match sd.data[4]? with
            | none => none
            | some a4 =>
              if a0 = 0x08 then
                match sd.data[1]? with
                | none => none
                | some a1 =>
                  if a1 = 0x01 then
                    some (some { QingpingParseResult.declared with
                      type := .TYPE_CGG1, name := "CGG1", has_data := header_has_data a0,
                      has_capability := header_has_capability a0, has_encryption := false,
                      is_duplicate := false, raw_offset := 8 }, a4)
                  else some (none, a4)
              else some (none, a4) := by
  unfold parse_qingping_header
  by_cases hu : (!sd.uuid.contains 0x95 0xFE && !sd.uuid.contains 0xCD 0xFD) = true
  · simp only [hu, if_true]
  · simp only [hu, if_false]
    cases h0 : sd.data[0]? with
    | none => rfl
    | some a0 =>
      by_cases hd : header_has_data a0 = false
      · simp [hd]
      · cases h4 : sd.data[4]? with
        | none => simp [hd]
        | some a4 =>
          by_cases h8 : a0 = 0x08
          · cases h1 : sd.data[1]? with
            | none => simp [hd, h8]
            | some a1 =>
              by_cases h11 : a1 = 0x01
              · simp [hd, h8, h11]
              · simp [hd, h8, h11]
          · simp [hd, h8]

theorem header_accepts (sd : ServiceData) (c c' : Nat) (r : QingpingParseResult)
    (h : parse_qingping_header sd c = some (some r, c')) :
    (sd.uuid.contains 0x95 0xFE = true ∨ sd.uuid.contains 0xCD 0xFD = true) ∧
    sd.data[0]? = some 0x08 ∧ sd.data[1]? = some 0x01 ∧ sd.data[4]? = some c' ∧
    r = { QingpingParseResult.declared with
      type := .TYPE_CGG1, name := "CGG1", has_data := true,
      has_capability := false, has_encryption := false,
      is_duplicate := false, raw_offset := 8 } := by
  rw [header_general] at h
  by_cases hu : (!sd.uuid.contains 0x95 0xFE && !sd.uuid.contains 0xCD 0xFD) = true
  · rw [if_pos hu] at h
    simp at h
  · rw [if_neg hu] at h
    have hu' : sd.uuid.contains 0x95 0xFE = true ∨ sd.uuid.contains 0xCD 0xFD = true := by
      cases h1 : sd.uuid.contains 0x95 0xFE <;> cases h2 : sd.uuid.contains 0xCD 0xFD <;>
        simp [h1, h2] at hu ⊢
    refine ⟨hu', ?_⟩
    cases h0 : sd.data[0]? with
    | none => rw [h0] at h; simp at h
    | some a0 =>
      rw [h0] at h
      simp only at h
      by_cases hd : header_has_data a0 = false
      · rw [if_pos hd] at h
        simp at h
      · rw [if_neg hd] at h
        cases h4 : sd.data[4]? with
        | none => rw [h4] at h; simp at h
        | some a4 =>
          rw [h4] at h
          simp only at h
          by_cases h8 : a0 = 0x08
          · rw [if_pos h8] at h
            cases h1 : sd.data[1]? with
            | none => rw [h1] at h; simp at h
            | some a1 =>
              rw [h1] at h
              simp only at h
              by_cases h11 : a1 = 0x01
              · rw [if_pos h11] at h
                simp only [Option.some.injEq, Prod.mk.injEq] at h
                obtain ⟨hr, hc⟩ := h
                subst h8 h11 hc
                exact ⟨rfl, rfl, rfl, hr.symm⟩
              · rw [if_neg h11] at h
                simp at h
          · rw [if_neg h8] at h
            simp at h

theorem decoder_total (message : List Nat) (result : QingpingParseResult) (t len : Nat)
    (ht : readAt message result.raw_offset = some t)
    (hl : readAt message (result.raw_offset + 2) = some len)
    (hin : result.raw_offset + 3 + len ≤ message.length) :
    ∃ ok r, parse_qingping_message message result = some (ok, r) := by
  obtain ⟨hoff, _⟩ := readAt_nonneg message _ t ht
  rw [parse_qingping_message_eq message result _ t len (message_first message _ _ ht) ht hl]
  by_cases hbad : len < 1 ∨ len > 4
  · exact ⟨_, _, if_pos hbad⟩
  · rw [if_neg hbad]
    obtain ⟨d0, hd0⟩ := readAt_some message (result.raw_offset + 3) (by omega) (by omega)
    by_cases h1 : t = 0x04 ∧ len = 2
    · obtain ⟨d1, hd1⟩ := readAt_some message (result.raw_offset + 3 + 1) (by omega) (by omega)
      rw [if_pos h1, hd0, hd1]
      exact ⟨_, _, rfl⟩
    · rw [if_neg h1]
      by_cases h2 : t = 0x06 ∧ len = 2
      · obtain ⟨d1, hd1⟩ := readAt_some message (result.raw_offset + 3 + 1) (by omega) (by omega)
        rw [if_pos h2, hd0, hd1]
        exact ⟨_, _, rfl⟩
      · rw [if_neg h2]
        by_cases h3 : t = 0x0A ∧ len = 1
        · rw [if_pos h3, hd0]
          exact ⟨_, _, rfl⟩
        · rw [if_neg h3]
          by_cases h4 : t = 0x0D ∧ len = 4
          · obtain ⟨d1, hd1⟩ := readAt_some message (result.raw_offset + 3 + 1) (by omega)
              (by omega)
            obtain ⟨d2, hd2⟩ := readAt_some message (result.raw_offset + 3 + 2) (by omega)
              (by omega)
            obtain ⟨d3, hd3⟩ := readAt_some message (result.raw_offset + 3 + 3) (by omega)
              (by omega)
            rw [if_pos h4, hd0, hd1, hd2, hd3]
            exact ⟨_, _, rfl⟩
          · rw [if_neg h4]
            exact ⟨_, _, rfl⟩

/-- C16. `parse_qingping_header` never uses `last_frame_count` to decide: for any
two values of the counter it gives the same outcome (the same fault, rejection
or result); every returned result has `is_duplicate` false; and a record that
was accepted is accepted again, with the same result, when it is classified a
second time with the counter the first call left behind (its own byte 4). -/
theorem C16_no_duplicate_rejection (sd : ServiceData) (c1 c2 : Nat) :
    (parse_qingping_header sd c1).map Prod.fst = (parse_qingping_header sd c2).map Prod.fst ∧
    (∀ r c', parse_qingping_header sd c1 = some (some r, c') →
      r.is_duplicate = false ∧ sd.data[4]? = some c' ∧
      parse_qingping_header sd c' = some (some r, c')) := by
  constructor
  · rw [header_general, header_general]
    by_cases hu : (!sd.uuid.contains 0x95 0xFE && !sd.uuid.contains 0xCD 0xFD) = true
    · rw [if_pos hu, if_pos hu]; rfl
    · rw [if_neg hu, if_neg hu]
      cases sd.data[0]? with
      | none => rfl
      | some a0 =>
        simp only
        by_cases hd : header_has_data a0 = false
        · rw [if_pos hd, if_pos hd]; rfl
        · rw [if_neg hd, if_neg hd]
  · intro r c' h
    obtain ⟨hu, h0, h1, h4, hr⟩ := header_accepts sd c1 c' r h
    have hu' : ¬ ((!sd.uuid.contains 0x95 0xFE && !sd.uuid.contains 0xCD 0xFD) = true) := by
      rcases hu with e | e <;> simp [e]
    refine ⟨by rw [hr], h4, ?_⟩
    rw [header_general, if_neg hu', h0, h4, h1, hr]
    rfl

/-- Instance of C16: `battery_record` is accepted with counter 0 and again with
the counter 4 that the first call leaves behind. -/
theorem C16_no_duplicate_rejection_witness :
    header_result.is_duplicate = false ∧ battery_record[4]? = some 4 ∧
    parse_qingping_header { uuid := sample_uuid, data := battery_record } 4 =
      some (some header_result, 4) :=
  (C16_no_duplicate_rejection { uuid := sample_uuid, data := battery_record } 0 4).2
    header_result 4 rfl

/-- C17. Whenever `parse_qingping_message` returns, with `true` or with `false`,
`result.has_encryption` afterwards is bit 3 of record byte 0, whatever it was
before the call (the outcome does not depend on the prior value at all); and
the function does return when the data point lies inside the record. -/
theorem C17_encryption_flag (message : List Nat) (result : QingpingParseResult) :
    (∀ ok r, parse_qingping_message message result = some (ok, r) →
      ∃ m0, message[0]? = some m0 ∧ r.has_encryption = m0.testBit 3) ∧
    (∀ b, parse_qingping_message message { result with has_encryption := b } =
      parse_qingping_message message result) ∧
    (∀ t len, readAt message result.raw_offset = some t →
      readAt message (result.raw_offset + 2) = some len →
      result.raw_offset + 3 + len ≤ message.length →
      ∃ ok r, parse_qingping_message message result = some (ok, r)) := by
  refine ⟨fun ok r h => ?_, fun b => rfl, fun t len ht hl hin =>
    decoder_total message result t len ht hl hin⟩
  obtain ⟨m0, hm0, he⟩ := decoder_has_encryption message result ok r h
  refine ⟨m0, hm0, ?_⟩
  rw [he]
  exact and_two_pow_ne_zero m0 3

/-- Instance of C17: on `battery_record` (byte 0 is `0x08`) the flag comes out
true although it was false before. -/
theorem C17_encryption_flag_witness :
    header_result.has_encryption = false ∧
    ∃ ok r, parse_qingping_message battery_record header_result = some (ok, r) ∧
      ∃ m0, battery_record[0]? = some m0 ∧ r.has_encryption = m0.testBit 3 ∧
        m0.testBit 3 = true := by
  obtain ⟨ok, r, h⟩ := (C17_encryption_flag battery_record header_result).2.2 0x0A 1 rfl rfl
    (by decide)
  obtain ⟨m0, hm0, he⟩ := (C17_encryption_flag battery_record header_result).1 ok r h
  refine ⟨rfl, ok, r, h, m0, hm0, he, ?_⟩
  have : m0 = 0x08 := by
    have h8 : battery_record[0]? = some 0x08 := rfl
    rw [h8] at hm0
    exact (Option.some.inj hm0).symm
  rw [this]
  decide

/-! ## Decryption and classification together: claims C18 and C20 -/

theorem prepare_vector_key (raw bindkey : List Nat) (address : Nat) (v : QingpingAESVector)
    (hv : prepare_vector raw bindkey address = some v) : 16 ≤ bindkey.length := by
  by_contra hk
  have : prepare_vector raw bindkey address = none := by
    simp [prepare_vector, memcpy, hk]
  rw [this] at hv
  exact absurd hv (by simp)

theorem decrypt_ok_inversion (m : Mbedtls) (raw bindkey : List Nat) (address : Nat)
    (out : List Nat) (calls : List MbedtlsCall)
    (h : decrypt_qingping_payload m raw bindkey address =
      some { ok := true, raw := out, calls := calls }) :
    (raw.length = 19 ∨ raw.length = 22 ∨ raw.length = 23 ∨ raw.length = 24) ∧
    ∃ v b0, prepare_vector raw bindkey address = some v ∧ raw[0]? = some b0 ∧
      out.length = raw.length ∧
      ∀ j, out[j]? =
        if j = 0 then some ((b0 &&& 0xF7) % 256)
        else if cipher_pos raw.length ≤ j ∧ j < cipher_pos raw.length + datasize raw.length then
          some ((call_auth_decrypt m v).2.getD (j - cipher_pos raw.length) 0)
        else raw[j]? := by
  by_cases hn : raw.length = 19 ∨ raw.length = 22 ∨ raw.length = 23 ∨ raw.length = 24
  · refine ⟨hn, ?_⟩
    cases hv : prepare_vector raw bindkey address with
    | none =>
      have hlen : ¬ ¬ (raw.length = 19 ∨ (raw.length ≥ 22 ∧ raw.length ≤ 24)) := by omega
      unfold decrypt_qingping_payload at h
      rw [if_neg hlen, hv] at h
      simp at h
    | some v =>
      have hk := prepare_vector_key raw bindkey address v hv
      by_cases hs : call_setkey m v = 0
      · by_cases ha : (call_auth_decrypt m v).1 = 0
        · obtain ⟨o, b0, hb0, hd, hl, hj⟩ :=
            decrypt_succeeded m raw bindkey address v hn hk hv hs ha
          rw [hd] at h
          simp only [Option.some.injEq, DecryptOutcome.mk.injEq, true_and] at h
          obtain ⟨ho, _⟩ := h
          subst ho
          exact ⟨v, b0, rfl, hb0, hl, hj⟩
        · rw [decrypt_auth_failed m raw bindkey address v hn hv hs ha] at h
          simp at h
      · rw [decrypt_setkey_failed m raw bindkey address v hn hv hs] at h
        simp at h
  · rw [decrypt_rejected m raw bindkey address hn] at h
    simp at h

/-- C18. For an accepted record length `n`: `datasize` is between 1 and 16; the
ciphertext range `[cipher_pos, cipher_pos + datasize)`, the counter range
`[n-7, n-4)` and the tag range `[n-4, n)` lie inside `[0, n)`; the ciphertext
range starts at or after index 5 and ends exactly at `n-7`, so these three
ranges and the nonce source `[2, 5)` are pairwise disjoint; every `memcpy` of the
preparation stays in bounds (with a 16-byte key it yields a vector); and after a
successful decryption the bytes at `[2, 5)`, `[n-7, n-4)` and `[n-4, n)` are the
bytes that were there before. -/
theorem C18_slices (n : Nat) (hn : n = 19 ∨ n = 22 ∨ n = 23 ∨ n = 24) :
    (1 ≤ datasize n ∧ datasize n ≤ 16) ∧
    (cipher_pos n + datasize n ≤ n ∧ 7 ≤ n ∧ (n - 7) + 3 = n - 4 ∧ (n - 4) + 4 = n) ∧
    (5 ≤ cipher_pos n ∧ cipher_pos n + datasize n = n - 7) ∧
    (∀ j,
      ¬ ((cipher_pos n ≤ j ∧ j < cipher_pos n + datasize n) ∧ (n - 7 ≤ j ∧ j < n - 4)) ∧
      ¬ ((cipher_pos n ≤ j ∧ j < cipher_pos n + datasize n) ∧ (n - 4 ≤ j ∧ j < n)) ∧
      ¬ ((n - 7 ≤ j ∧ j < n - 4) ∧ (n - 4 ≤ j ∧ j < n)) ∧
      ¬ ((2 ≤ j ∧ j < 5) ∧ (cipher_pos n ≤ j ∧ j < cipher_pos n + datasize n)) ∧
      ¬ ((2 ≤ j ∧ j < 5) ∧ (n - 7 ≤ j ∧ j < n - 4)) ∧
      ¬ ((2 ≤ j ∧ j < 5) ∧ (n - 4 ≤ j ∧ j < n))) ∧
    (∀ raw bindkey address, raw.length = n → 16 ≤ bindkey.length →
      ∃ v, prepare_vector raw bindkey address = some v) ∧
    (∀ m raw bindkey address out calls, raw.length = n →
      decrypt_qingping_payload m raw bindkey address =
        some { ok := true, raw := out, calls := calls } →
      ∀ j, ((2 ≤ j ∧ j < 5) ∨ (n - 7 ≤ j ∧ j < n)) → out[j]? = raw[j]?) := by
  have hcp : cipher_pos n = if n = 19 then 5 else 11 := rfl
  have hds : datasize n = if n = 19 then n - 12 else n - 18 := rfl
  have harith : (1 ≤ datasize n ∧ datasize n ≤ 16) ∧
      (cipher_pos n + datasize n ≤ n ∧ 7 ≤ n ∧ (n - 7) + 3 = n - 4 ∧ (n - 4) + 4 = n) ∧
      (5 ≤ cipher_pos n ∧ cipher_pos n + datasize n = n - 7) := by
    rw [hcp, hds]
    split <;> omega
  obtain ⟨a1, a2, a3⟩ := harith
  refine ⟨a1, a2, a3, fun j => by omega, ?_, ?_⟩
  · intro raw bindkey address hlen hk
    exact ⟨_, prepare_vector_accepted raw bindkey address (by rw [hlen]; exact hn) hk⟩
  · intro m raw bindkey address out calls hlen h j hj
    obtain ⟨_, v, b0, _, _, _, hout⟩ := decrypt_ok_inversion m raw bindkey address out calls h
    rw [hout j, hlen, if_neg (by omega), if_neg (by omega)]

/-- Instance of C18 at `n = 19`: ciphertext `[5, 12)`, counter `[12, 15)`,
tag `[15, 19)`. -/
theorem C18_slices_witness :
    (1 ≤ datasize 19 ∧ datasize 19 ≤ 16) ∧
    (cipher_pos 19 + datasize 19 ≤ 19 ∧ 7 ≤ 19 ∧ (19 - 7) + 3 = 19 - 4 ∧ (19 - 4) + 4 = 19) ∧
    (5 ≤ cipher_pos 19 ∧ cipher_pos 19 + datasize 19 = 19 - 7) :=
  let h := C18_slices 19 (Or.inl rfl)
  ⟨h.1, h.2.1, h.2.2.1⟩

/-- C20. Classification cannot follow decryption.  When `parse_qingping_header`
accepts a record (so its UUID is recognised and byte 0 is `0x08`) and
`decrypt_qingping_payload` succeeds on it (so its length is 19, 22, 23 or 24),
byte 0 of the decrypted record is `0x00` and `parse_qingping_header` returns no
result for the decrypted record, whatever the counter; the `raw_offset` (8) is
in the result obtained before the decryption. -/
theorem C20_classify_before_decrypt (m : Mbedtls) (uuid : ESPBTUUID) (raw bindkey : List Nat)
    (address c c' : Nat) (r : QingpingParseResult) (out : List Nat) (calls : List MbedtlsCall)
    (hh : parse_qingping_header { uuid := uuid, data := raw } c = some (some r, c'))
    (hd : decrypt_qingping_payload m raw bindkey address =
      some { ok := true, raw := out, calls := calls }) :
    (raw.length = 19 ∨ raw.length = 22 ∨ raw.length = 23 ∨ raw.length = 24) ∧
    raw[0]? = some 0x08 ∧ out[0]? = some 0x00 ∧ r.raw_offset = 8 ∧
    (∀ c2, parse_qingping_header { uuid := uuid, data := out } c2 = some (none, c2)) := by
  obtain ⟨hu, h0, _, _, hr⟩ := header_accepts _ c c' r hh
  obtain ⟨hn, v, b0, _, hb0, _, hout⟩ := decrypt_ok_inversion m raw bindkey address out calls hd
  have hb : b0 = 0x08 := by
    have h0' : raw[0]? = some 0x08 := h0
    rw [hb0] at h0'
    exact Option.some.inj h0'
  have ho0 : out[0]? = some 0x00 := by
    rw [hout 0, if_pos rfl, hb]
    rfl
  have hu' : ¬ ((!uuid.contains 0x95 0xFE && !uuid.contains 0xCD 0xFD) = true) := by
    change uuid.contains 0x95 0xFE = true ∨ uuid.contains 0xCD 0xFD = true at hu
    rcases hu with e | e <;> simp [e]
  refine ⟨hn, h0, ho0, by rw [hr], fun c2 => ?_⟩
  rw [header_general]
  simp only [if_neg hu', ho0]
  rfl

/-- Instance of C20: `signed_record19` is accepted by the header, decrypts under
`toy_ccm`, and is rejected by the header afterwards. -/
theorem C20_classify_before_decrypt_witness :
    (signed_record19.length = 19 ∨ signed_record19.length = 22 ∨ signed_record19.length = 23 ∨
      signed_record19.length = 24) ∧
    signed_record19[0]? = some 0x08 ∧
    ([0x00, 0x01, 0x47, 0x03, 0x21, 0x0D, 0x10, 0x04, 0x0A, 0x00, 0x96, 0x01,
      0xC1, 0xC2, 0xC3, 0x01, 0x02, 0x03, 0x04] : List Nat)[0]? = some 0x00 ∧
    header_result.raw_offset = 8 ∧
    (∀ c2, parse_qingping_header
      { uuid := sample_uuid,
        data := [0x00, 0x01, 0x47, 0x03, 0x21, 0x0D, 0x10, 0x04, 0x0A, 0x00, 0x96, 0x01,
          0xC1, 0xC2, 0xC3, 0x01, 0x02, 0x03, 0x04] } c2 = some (none, c2)) :=
  C20_classify_before_decrypt toy_ccm sample_uuid signed_record19 sample_key sample_address
    0 0x21 header_result
    [0x00, 0x01, 0x47, 0x03, 0x21, 0x0D, 0x10, 0x04, 0x0A, 0x00, 0x96, 0x01,
      0xC1, 0xC2, 0xC3, 0x01, 0x02, 0x03, 0x04]
    [MbedtlsCall.ccm_init, MbedtlsCall.ccm_setkey sample_key 128,
      MbedtlsCall.ccm_auth_decrypt 7
        [0x5A, 0x6E, 0x10, 0x34, 0x2D, 0x58, 0x47, 0x03, 0x21, 0xC1, 0xC2, 0xC3] [0x11]
        [0x0D, 0x10, 0x04, 0x0A, 0x00, 0x96, 0x01] [0x01, 0x02, 0x03, 0x04],
      MbedtlsCall.ccm_free]
    rfl (by decide)

/-! ## The pipeline of `parse_device`: claims C14 and C15 -/

theorem decoder_success_populates (message : List Nat) (result r : QingpingParseResult)
    (h : parse_qingping_message message result = some (true, r)) :
    r.temperature.isSome = true ∨ r.humidity.isSome = true ∨ r.battery_level.isSome = true := by
  cases hm0 : message[0]? with
  | none => simp [parse_qingping_message, hm0] at h
  | some m0 =>
    cases hl : readAt message (result.raw_offset + 2) with
    | none => simp [parse_qingping_message, hm0, hl] at h
    | some len =>
      by_cases hbad : len < 1 ∨ len > 4
      · have : parse_qingping_message message result =
            some (false, { result with has_encryption := (m0 &&& 0x08) != 0 }) := by
          unfold parse_qingping_message
          simp only [hm0, hl, Option.bind_eq_bind, Option.some_bind]
          rw [if_pos hbad]
        rw [this] at h
        simp at h
      · cases ht : readAt message result.raw_offset with
        | none =>
          have : parse_qingping_message message result = none := by
            unfold parse_qingping_message
            simp only [hm0, hl, ht, Option.bind_eq_bind, Option.some_bind, Option.none_bind]
            rw [if_neg hbad]
          rw [this] at h
          exact absurd h (by simp)
        | some t =>
          rw [parse_qingping_message_eq message result m0 t len hm0 ht hl, if_neg hbad] at h
          split_ifs at h
          all_goals
            simp only [Option.bind_eq_some, Option.some.injEq, Prod.mk.injEq] at h
          all_goals
            first
            | exact absurd h.1 (by simp)
            | (obtain ⟨_, _, _, _, _, _, _, _, _, rfl⟩ := h; simp)

theorem parse_device_body_eq (this : QingpingCGG1) (sd : ServiceData) (c c' : Nat)
    (res r : QingpingParseResult)
    (hh : parse_qingping_header sd c = some (some res, c'))
    (hm : parse_qingping_message sd.data res = some (true, r)) :
    parse_device_body this sd c = some (some r,
      publish r.temperature this.temperature_ PublishedState.temperature ++
      publish r.humidity this.humidity_ PublishedState.humidity ++
      publish r.battery_level this.battery_level_ PublishedState.battery_level, c') := by
  obtain ⟨_, _, _, _, hr⟩ := header_accepts sd c c' res hh
  have hdup : res.is_duplicate = false := by rw [hr]
  have henc : res.has_encryption = false := by rw [hr]
  unfold parse_device_body
  simp [hh, hdup, henc, hm, report_qingping_results]

theorem parse_device_body_success (this : QingpingCGG1) (sd : ServiceData) (c c' : Nat)
    (r : QingpingParseResult) (states : List PublishedState)
    (h : parse_device_body this sd c = some (some r, states, c')) :
    ∃ res, parse_qingping_header sd c = some (some res, c') ∧
      parse_qingping_message sd.data res = some (true, r) := by
  unfold parse_device_body at h
  cases hh : parse_qingping_header sd c with
  | none => simp [hh] at h
  | some p =>
    obtain ⟨ores, c1⟩ := p
    cases ores with
    | none => simp [hh] at h
    | some res =>
      obtain ⟨_, _, _, _, hr⟩ := header_accepts sd c c1 res hh
      have hdup : res.is_duplicate = false := by rw [hr]
      have henc : res.has_encryption = false := by rw [hr]
      cases hm : parse_qingping_message sd.data res with
      | none => simp [hh, hdup, henc, hm] at h
      | some q =>
        obtain ⟨ok, r'⟩ := q
        cases ok with
        | false => simp [hh, hdup, henc, hm] at h
        | true =>
          simp [hh, hdup, henc, hm, report_qingping_results] at h
          obtain ⟨e1, _, e3⟩ := h
          subst e1 e3
          exact ⟨res, rfl, hm⟩

theorem decrypted_not_flagged (m : Mbedtls) (raw bindkey : List Nat) (address : Nat)
    (out : List Nat) (calls : List MbedtlsCall)
    (h : decrypt_qingping_payload m raw bindkey address =
      some { ok := true, raw := out, calls := calls }) :
    ∃ o0, out[0]? = some o0 ∧ o0.testBit 3 = false := by
  obtain ⟨_, v, b0, _, _, _, hout⟩ := decrypt_ok_inversion m raw bindkey address out calls h
  exact ⟨_, by rw [hout 0, if_pos rfl], (clear_flag_bits b0).2.1⟩

theorem parse_device_loop_success (this : QingpingCGG1) (sds : List ServiceData) :
    ∀ (success : Bool) (published : List PublishedState) (c : Nat)
      (states : List PublishedState) (c' : Nat),
      parse_device_loop this sds success published c = some (true, states, c') →
      success = true ∨ ∃ sd ∈ sds, sd.data[0]? = some 0x08 := by
  induction sds with
  | nil =>
    intro success published c states c' h
    simp only [parse_device_loop, Option.some.injEq, Prod.mk.injEq] at h
    exact Or.inl h.1
  | cons sd rest ih =>
    intro success published c states c' h
    cases hb : parse_device_body this sd c with
    | none => simp [parse_device_loop, hb] at h
    | some p =>
      obtain ⟨res, st, c1⟩ := p
      simp only [parse_device_loop, hb, Option.bind_eq_bind, Option.some_bind] at h
      rcases ih _ _ _ _ _ h with e | ⟨sd', hmem, h8⟩
      · cases res with
        | none =>
          simp only [Option.isSome_none, Bool.or_false] at e
          exact Or.inl e
        | some r =>
          obtain ⟨res', hh, _⟩ := parse_device_body_success this sd c c1 r st hb
          exact Or.inr ⟨sd, List.mem_cons_self _ _, (header_accepts sd c c1 res' hh).2.1⟩
      · exact Or.inr ⟨sd', List.mem_cons_of_mem _ hmem, h8⟩

/-- C14, as stated, fails on `battery_record`: one pass of the loop of
`parse_device` decodes it and publishes battery 100, although bit 3 of its
byte 0 (`0x08`) is set and it is not the output of any successful
`decrypt_qingping_payload`. -/
theorem C14_counterexample :
    parse_device_body sample_cgg1 { uuid := sample_uuid, data := battery_record } 0 =
      some (some { header_result with
                    has_encryption := true, battery_level := some ((0x64 : Nat) : ℚ) },
        [PublishedState.battery_level ((0x64 : Nat) : ℚ)], 4) ∧
    battery_record[0]? = some 0x08 ∧
    ¬ (Nat.testBit 0x08 3 = false ∨
      ∃ m raw bindkey address calls, decrypt_qingping_payload m raw bindkey address =
        some { ok := true, raw := battery_record, calls := calls }) := by
  refine ⟨?_, rfl, ?_⟩
  · exact parse_device_body_eq sample_cgg1 { uuid := sample_uuid, data := battery_record } 0 4
      header_result _ rfl (decode_battery battery_record header_result 0x64 rfl rfl rfl)
  · rintro (h | ⟨m, raw, bindkey, address, calls, h⟩)
    · exact absurd h (by decide)
    · obtain ⟨o0, ho0, hbit⟩ := decrypted_not_flagged m raw bindkey address _ calls h
      have h8 : battery_record[0]? = some 0x08 := rfl
      rw [h8] at ho0
      rw [← Option.some.inj ho0] at hbit
      exact absurd hbit (by decide)

/-- C14, amended. In the pipeline of `QingpingCGG1::parse_device`, whenever a pass
of the loop ends with measurements populated by `parse_qingping_message`, the
record was accepted by `parse_qingping_header` (whose result has
`has_encryption` false) and was decoded as received: its byte 0 is `0x08`, so
its encryption flag (bit 3) is set, it is not the output of a successful
`decrypt_qingping_payload`, and the decoded result has `has_encryption` true
and carries a temperature, a humidity or a battery level. -/
theorem C14_pipeline_decodes_as_received (this : QingpingCGG1) (sd : ServiceData) (c c' : Nat)
    (r : QingpingParseResult) (states : List PublishedState)
    (h : parse_device_body this sd c = some (some r, states, c')) :
    ∃ res, parse_qingping_header sd c = some (some res, c') ∧ res.has_encryption = false ∧
      parse_qingping_message sd.data res = some (true, r) ∧
      sd.data[0]? = some 0x08 ∧ Nat.testBit 0x08 3 = true ∧
      r.has_encryption = true ∧
      (r.temperature.isSome = true ∨ r.humidity.isSome = true ∨ r.battery_level.isSome = true) ∧
      (∀ m raw bindkey address calls, decrypt_qingping_payload m raw bindkey address ≠
        some { ok := true, raw := sd.data, calls := calls }) := by
  obtain ⟨res, hh, hm⟩ := parse_device_body_success this sd c c' r states h
  obtain ⟨_, h0, _, _, hr⟩ := header_accepts sd c c' res hh
  obtain ⟨m0, hm0, he⟩ := decoder_has_encryption sd.data res true r hm
  have hm8 : m0 = 0x08 := by
    rw [h0] at hm0
    exact (Option.some.inj hm0).symm
  refine ⟨res, hh, by rw [hr], hm, h0, by decide, ?_, decoder_success_populates _ _ _ hm, ?_⟩
  · rw [he, hm8]; decide
  · intro m raw bindkey address calls hd
    obtain ⟨o0, ho0, hbit⟩ := decrypted_not_flagged m raw bindkey address _ calls hd
    rw [h0] at ho0
    rw [← Option.some.inj ho0] at hbit
    exact absurd hbit (by decide)

/-- Instance of C14 (amended) on `battery_record`. -/
theorem C14_pipeline_decodes_as_received_witness :
    ∃ res, parse_qingping_header { uuid := sample_uuid, data := battery_record } 0 =
        some (some res, 4) ∧ res.has_encryption = false ∧
      parse_qingping_message battery_record res =
        some (true, { header_result with
          has_encryption := true, battery_level := some ((0x64 : Nat) : ℚ) }) ∧
      battery_record[0]? = some 0x08 ∧ Nat.testBit 0x08 3 = true :=
  let ⟨res, h1, h2, h3, h4, h5, _⟩ :=
    C14_pipeline_decodes_as_received sample_cgg1
      { uuid := sample_uuid, data := battery_record } 0 4
      { header_result with has_encryption := true, battery_level := some ((0x64 : Nat) : ℚ) }
      [PublishedState.battery_level ((0x64 : Nat) : ℚ)]
      (parse_device_body_eq sample_cgg1 { uuid := sample_uuid, data := battery_record } 0 4
        header_result _ rfl (decode_battery battery_record header_result 0x64 rfl rfl rfl))
  ⟨res, h1, h2, h3, h4, h5⟩

/-- C15: the code at the 5-byte record `08 01 02 03 04` with a recognised UUID.
`parse_qingping_header` accepts it with `raw_offset = 8`; the first index
`parse_qingping_message` reads after byte 0 is `raw_offset + 2 = 10`, which is
not below the length 5, so the read is out of range, in the decoder and in the
pipeline of `parse_device`. -/
theorem C15_out_of_bounds :
    5 ≤ short_record.length ∧
    parse_qingping_header { uuid := sample_uuid, data := short_record } 0 =
      some (some header_result, 4) ∧
    header_result.raw_offset = 8 ∧
    ¬ (header_result.raw_offset + 2 < short_record.length) ∧
    readAt short_record (header_result.raw_offset + 2) = none ∧
    parse_qingping_message short_record header_result = none ∧
    parse_device_body sample_cgg1 { uuid := sample_uuid, data := short_record } 0 = none := by
  exact ⟨by decide, rfl, rfl, by decide, rfl, rfl, rfl⟩

theorem parse_device_success (this : QingpingCGG1) (device : ESPBTDevice) (c c' : Nat)
    (states : List PublishedState)
    (h : this.parse_device device c = some (true, states, c')) :
    device.address_uint64 = this.address_ ∧
    ∃ sd ∈ device.get_service_datas, sd.data[0]? = some 0x08 := by
  unfold QingpingCGG1.parse_device at h
  by_cases ha : device.address_uint64 ≠ this.address_
  · rw [if_pos ha] at h
    simp at h
  · rw [if_neg ha] at h
    refine ⟨not_not.mp ha, ?_⟩
    cases hl : parse_device_loop this device.get_service_datas false [] c with
    | none => simp [hl] at h
    | some p =>
      obtain ⟨success, st, c1⟩ := p
      cases success with
      | false => simp [hl] at h
      | true =>
        rcases parse_device_loop_success this _ _ _ _ _ _ hl with e | e
        · exact absurd e (by simp)
        · exact e

end qingping_ble
end esphome
